import Mathlib

/-!
Shallow embedding of the state-synchronization core of the `vscode-todolist`
extension, together with proofs about its data model and operations.

Sources embedded here:
- `src/types.ts` — the `Todo` record, `TodoScope`, `ScopeKey`.
- `src/domain/todo.ts` (also surfaced through `src/webviewState.ts`) —
  `normalizePositions`, `reorderTodosByOrder`.
- `src/todoRepository.ts` — the `TodoRepository` mementos, `createTodo`,
  `nextPosition`, `captureSnapshot` / `consumeSnapshot`, `readTodos`,
  `persistTodos`, `scopeKey`, `ensureWorkspaceFolder`.
- `src/services/todoOperations.ts` — `clearScope`, `removeTodoWithUndo`.
- the auto-delete coordinator — `schedule`, `cancel`, `cancelScope`.
- `src/todoWebviewHost.ts` — per-channel readiness buffering of the webview
  provider (`postMessage`, `markReady`, `flushPendingMessages`).
- `src/adapters/webviewRouter.ts` — `handleWebviewCreate`,
  `scopeFromWebviewScope`.

Modelling conventions:
- Timestamps (`new Date().toISOString()`) are opaque clock values, modelled as
  `Nat` and passed explicitly as a `now` argument.
- JavaScript `Map` objects and plain-object key records are modelled as
  association lists in insertion order, which is exactly the iteration order
  JavaScript guarantees (`alistLookup`, `alistSet`, `alistDelete`).
- `Array.prototype.sort` with the comparator `(a, b) => a.position - b.position`
  is a stable ascending sort by `position`; it is modelled by the stable
  insertion sort `sortByPosition` below, and the theorems prove the
  permutation / sortedness / stability facts that pin that reading down.
- Fallible code (`throw new Error(...)`) is modelled with `Except String`.
- `async` functions are modelled as pure state transformers: an awaited
  memento update simply produces the next repository state.
-/

/-- Model of `TodoScope` from `src/types.ts`: `'global' | 'workspace'`. -/
inductive TodoScope
  | globalScope
  | workspaceScope
deriving DecidableEq, Repr

/-- Model of the `Todo` record from `src/types.ts`. `position` is a JS number
used as an integer; `createdAt` / `updatedAt` are opaque clock values. -/
structure Todo where
  id : String
  title : String
  completed : Bool
  scope : TodoScope
  workspaceFolder : Option String
  position : Int
  createdAt : Nat
  updatedAt : Nat
deriving DecidableEq, Repr

/-- Association-list lookup: model of `Map.prototype.get` and of reading a
plain-object key (`state.folders[folderKey]`). -/
def alistLookup {α : Type} (entries : List (String × α)) (key : String) : Option α :=
  (entries.find? (fun entry => entry.1 == key)).map (fun entry => entry.2)

/-- Association-list update: model of `Map.prototype.set` and of writing a
plain-object key. An existing key is updated in place, a new key is appended,
matching JavaScript insertion-order semantics. -/
def alistSet {α : Type} : List (String × α) → String → α → List (String × α)
  | [], key, value => [(key, value)]
  | entry :: rest, key, value =>
      if entry.1 == key then (key, value) :: rest else entry :: alistSet rest key value

/-- Association-list removal: model of `Map.prototype.delete`. -/
def alistDelete {α : Type} (entries : List (String × α)) (key : String) : List (String × α) :=
  entries.filter (fun entry => !(entry.1 == key))

/-- One step of the stable sort: insert `t` before the first element whose
`position` is not strictly smaller, so that earlier-listed elements win ties. -/
def insertByPosition (t : Todo) : List Todo → List Todo
  | [] => [t]
  | x :: xs => if x.position < t.position then x :: insertByPosition t xs else t :: x :: xs

/-- Model of `[...todos].sort((a, b) => a.position - b.position)`: the stable
ascending sort by `position` used by `normalizePositions`. -/
def sortByPosition : List Todo → List Todo
  | [] => []
  | t :: ts => insertByPosition t (sortByPosition ts)

/-- Model of the `.map((todo, index) => ({ ...todo, position: index + 1 }))`
pass of `normalizePositions`, with the running index made explicit. -/
def assignSeqPositions : Nat → List Todo → List Todo
  | _, [] => []
  | index, todo :: rest =>
      { todo with position := (index : Int) + 1 } :: assignSeqPositions (index + 1) rest

/-- Model of `normalizePositions` from `src/domain/todo.ts`: stable-sort by
`position`, then reassign positions `1..N`. `updatedAt` is not touched. -/
def normalizePositions (todos : List Todo) : List Todo :=
  assignSeqPositions 0 (sortByPosition todos)

/-- Model of building the `lookup` map in `reorderTodosByOrder`:
`todos.forEach((todo) => lookup.set(todo.id, todo))`. -/
def buildLookup (todos : List Todo) : List (String × Todo) :=
  todos.foldl (fun lookup todo => alistSet lookup todo.id todo) []

/-- Model of the `order.forEach` phase of `reorderTodosByOrder`: take the todos
named by `order` out of the lookup map (skipping unknown ids), returning the
taken todos in order together with the remaining map. -/
def takeByOrder : List (String × Todo) → List String → List Todo × List (String × Todo)
  | lookup, [] => ([], lookup)
  | lookup, id :: rest =>
      match alistLookup lookup id with
      | some todo =>
          let result := takeByOrder (alistDelete lookup id) rest
          (todo :: result.1, result.2)
      | none => takeByOrder lookup rest

/-- The `newOrder` array of `reorderTodosByOrder`: todos named by `order`
first, then the unmentioned todos in map insertion order (their original
relative order). -/
def reorderPermute (todos : List Todo) (order : List String) : List Todo :=
  let result := takeByOrder (buildLookup todos) order
  result.1 ++ result.2.map (fun entry => entry.2)

/-- Model of the final `newOrder.forEach` pass of `reorderTodosByOrder`:
assign `index + 1` as the position, refreshing `updatedAt` and raising the
`changed` flag exactly when the stored position differs. -/
def assignPositions (now : Nat) : Nat → List Todo → List Todo × Bool
  | _, [] => ([], false)
  | index, todo :: rest =>
      let result := assignPositions now (index + 1) rest
      if todo.position = (index : Int) + 1 then (todo :: result.1, result.2)
      else ({ todo with position := (index : Int) + 1, updatedAt := now } :: result.1, true)

/-- Model of `reorderTodosByOrder` from `src/domain/todo.ts`. Returns the
reordered list (the source mutates `todos` in place via `splice`) together
with the `changed` flag the function returns. -/
def reorderTodosByOrder (todos : List Todo) (order : List String) (now : Nat) :
    List Todo × Bool :=
  assignPositions now 0 (reorderPermute todos order)

/-- First-occurrence deduplication of an id array, with the already-seen ids
made explicit. Because `reorderTodosByOrder` deletes a todo from its lookup
map when an order id first matches, later duplicates of that id find nothing
and are skipped — so the placement realized by the code follows the order
array with later duplicates removed. -/
def dedupFirstAux (seen : List String) : List String → List String
  | [] => []
  | x :: xs =>
      if seen.contains x then dedupFirstAux seen xs
      else x :: dedupFirstAux (x :: seen) xs

/-- The order array with later duplicate ids dropped (first occurrences kept):
the effective placement order of `reorderTodosByOrder`. -/
def dedupFirst (order : List String) : List String := dedupFirstAux [] order

/-- Model of `PersistedTodo` from `src/todoRepository.ts`:
`Omit<Todo, 'scope' | 'workspaceFolder'>`. -/
structure PersistedTodo where
  id : String
  title : String
  completed : Bool
  position : Int
  createdAt : Nat
  updatedAt : Nat
deriving DecidableEq, Repr

/-- Model of `PersistedGlobalState`. -/
structure PersistedGlobalState where
  version : Nat
  todos : List PersistedTodo
deriving DecidableEq, Repr

/-- Model of `PersistedWorkspaceState`; `folders` is a plain-object record,
modelled as an insertion-ordered association list. -/
structure PersistedWorkspaceState where
  version : Nat
  folders : List (String × List PersistedTodo)
deriving DecidableEq, Repr

def SCHEMA_VERSION : Nat := 1

/-- Repository state: the two host mementos (`globalState` / `workspaceState`,
`none` when the key was never written) plus the in-memory `undoSnapshots` map. -/
structure RepoState where
  globalMemento : Option PersistedGlobalState
  workspaceMemento : Option PersistedWorkspaceState
  undoSnapshots : List (String × List Todo)
deriving DecidableEq, Repr

def emptyRepo : RepoState :=
  { globalMemento := none, workspaceMemento := none, undoSnapshots := [] }

/-- Model of `toEntity`: drop `scope` and `workspaceFolder`. -/
def toEntity (todo : Todo) : PersistedTodo :=
  { id := todo.id, title := todo.title, completed := todo.completed,
    position := todo.position, createdAt := todo.createdAt, updatedAt := todo.updatedAt }

/-- Model of `toTodo`: re-attach `scope` and `workspaceFolder` on read. -/
def toTodo (scope : TodoScope) (workspaceFolder : Option String) (entity : PersistedTodo) :
    Todo :=
  { id := entity.id, title := entity.title, completed := entity.completed,
    scope := scope, workspaceFolder := workspaceFolder,
    position := entity.position, createdAt := entity.createdAt, updatedAt := entity.updatedAt }

/-- Model of `TodoRepository.getGlobalState`: absent or version-mismatched
memento yields the empty default. -/
def getGlobalState (s : RepoState) : PersistedGlobalState :=
  match s.globalMemento with
  | none => { version := SCHEMA_VERSION, todos := [] }
  | some stored =>
      if stored.version = SCHEMA_VERSION then
        { version := SCHEMA_VERSION, todos := stored.todos }
      else { version := SCHEMA_VERSION, todos := [] }

/-- Model of `TodoRepository.getWorkspaceState`. -/
def getWorkspaceState (s : RepoState) : PersistedWorkspaceState :=
  match s.workspaceMemento with
  | none => { version := SCHEMA_VERSION, folders := [] }
  | some stored =>
      if stored.version = SCHEMA_VERSION then
        { version := SCHEMA_VERSION, folders := stored.folders }
      else { version := SCHEMA_VERSION, folders := [] }

/-- Model of `ensureWorkspaceFolder`: a missing (`undefined`) or empty string
folder key is falsy in JavaScript and raises. -/
def ensureWorkspaceFolder (workspaceFolder : Option String) : Except String String :=
  match workspaceFolder with
  | some folder =>
      if folder.isEmpty then
        .error "workspaceFolder must be provided for workspace scoped data."
      else .ok folder
  | none => .error "workspaceFolder must be provided for workspace scoped data."

/-- Model of `TodoRepository.getGlobalTodos`. -/
def getGlobalTodos (s : RepoState) : List Todo :=
  (getGlobalState s).todos.map (toTodo .globalScope none)

/-- Model of `TodoRepository.getWorkspaceTodos`. -/
def getWorkspaceTodos (s : RepoState) (workspaceFolder : String) :
    Except String (List Todo) := do
  let folderKey ← ensureWorkspaceFolder (some workspaceFolder)
  let state := getWorkspaceState s
  let todos := (alistLookup state.folders folderKey).getD []
  pure (todos.map (toTodo .workspaceScope (some folderKey)))

/-- Model of `TodoRepository.saveGlobalTodos`. -/
def saveGlobalTodos (s : RepoState) (todos : List Todo) : RepoState :=
  { s with
    globalMemento := some { version := SCHEMA_VERSION, todos := todos.map toEntity } }

/-- Model of `TodoRepository.saveWorkspaceTodos`. -/
def saveWorkspaceTodos (s : RepoState) (workspaceFolder : String) (todos : List Todo) :
    Except String RepoState := do
  let folderKey ← ensureWorkspaceFolder (some workspaceFolder)
  let state := getWorkspaceState s
  pure { s with
         workspaceMemento :=
           some { version := SCHEMA_VERSION,
                  folders := alistSet state.folders folderKey (todos.map toEntity) } }

/-- Model of the `ScopeTarget` descriptor
(`{scope:'global'} | {scope:'workspace'; workspaceFolder: string}`). -/
inductive ScopeTarget
  | globalTarget
  | workspaceTarget (workspaceFolder : String)
deriving DecidableEq, Repr

/-- Model of `TodoRepository.readTodos`. -/
def readTodos (s : RepoState) (scope : ScopeTarget) : Except String (List Todo) :=
  match scope with
  | .globalTarget => .ok (getGlobalTodos s)
  | .workspaceTarget folder => getWorkspaceTodos s folder

/-- Model of `TodoRepository.persistTodos`, the single write path: normalize
positions, then save to the addressed bucket. (`todoOperations.ts` carries a
local `persistTodos` helper that inlines the identical sort-and-reindex
normalization before saving; both are modelled by this function.) -/
def persistTodos (s : RepoState) (scope : ScopeTarget) (todos : List Todo) :
    Except String RepoState :=
  let normalized := normalizePositions todos
  match scope with
  | .globalTarget => .ok (saveGlobalTodos s normalized)
  | .workspaceTarget folder => saveWorkspaceTodos s folder normalized

/-- Model of `TodoRepository.scopeKey`. -/
def scopeKey (scope : TodoScope) (workspaceFolder : Option String) : Except String String :=
  match scope with
  | .globalScope => .ok "global"
  | .workspaceScope => do
      let folderKey ← ensureWorkspaceFolder workspaceFolder
      pure ("workspace:" ++ folderKey)

/-- The `repository.scopeKey(scope.scope, scope.scope === 'workspace' ?
scope.workspaceFolder : undefined)` call pattern used by `todoOperations.ts`. -/
def scopeKeyOfTarget (scope : ScopeTarget) : Except String String :=
  match scope with
  | .globalTarget => scopeKey .globalScope none
  | .workspaceTarget folder => scopeKey .workspaceScope (some folder)

/-- Model of `TodoRepository.captureSnapshot`: store a copy of `todos` in the
single slot for `scope`, overwriting any previous snapshot. (The JS deep copy
`todos.map(todo => ({ ...todo }))` is the identity in this pure model.) -/
def captureSnapshot (s : RepoState) (scope : String) (todos : List Todo) : RepoState :=
  { s with undoSnapshots := alistSet s.undoSnapshots scope todos }

/-- Model of `TodoRepository.consumeSnapshot`: read the slot, delete it, and
return the (cloned) snapshot alongside the next state. -/
def consumeSnapshot (s : RepoState) (scope : String) : Option (List Todo) × RepoState :=
  (alistLookup s.undoSnapshots scope,
   { s with undoSnapshots := alistDelete s.undoSnapshots scope })

/-- Model of `CreateTodoInput`. -/
structure CreateTodoInput where
  title : String
  scope : TodoScope
  workspaceFolder : Option String := none
  position : Option Int := none
deriving DecidableEq, Repr

/-- JavaScript falsiness of a `string | undefined` value. -/
def optFalsy : Option String → Bool
  | none => true
  | some s => s.isEmpty

/-- Model of `TodoRepository.nextPosition`: `1` on an empty bucket, else the
maximum existing position plus one (`Math.max(...positions) + 1`). -/
def nextPosition (s : RepoState) (input : CreateTodoInput) : Except String Int := do
  let siblings ←
    match input.scope with
    | .globalScope => pure (getGlobalTodos s)
    | .workspaceScope => do
        let folderKey ← ensureWorkspaceFolder input.workspaceFolder
        getWorkspaceTodos s folderKey
  match siblings with
  | [] => pure 1
  | first :: rest =>
      pure ((rest.foldl (fun acc todo => max acc todo.position) first.position) + 1)

/-- Model of `TodoRepository.createTodo`. The generated `randomUUID()` and the
clock reading are explicit arguments (`freshId`, `now`). Note the only
validation performed here is the workspace-folder check. -/
def createTodo (s : RepoState) (input : CreateTodoInput) (freshId : String) (now : Nat) :
    Except String Todo := do
  if input.scope == .workspaceScope && optFalsy input.workspaceFolder then
    throw "workspaceFolder must be provided for workspace scoped todos."
  let position ←
    match input.position with
    | some p => pure p
    | none => nextPosition s input
  pure { id := freshId, title := input.title, completed := false,
         scope := input.scope,
         workspaceFolder :=
           if input.scope == .workspaceScope then input.workspaceFolder else none,
         position := position, createdAt := now, updatedAt := now }

/-- Model of the webview-side scope descriptor (`WebviewScope`): the workspace
variant carries a folder string that may be empty. -/
inductive WebviewScope
  | globalScope
  | workspaceScope (workspaceFolder : String)
deriving DecidableEq, Repr

/-- Model of `scopeFromWebviewScope` from `src/adapters/webviewRouter.ts`:
a workspace descriptor with a falsy folder resolves to no target. -/
def scopeFromWebviewScope : WebviewScope → Option ScopeTarget
  | .globalScope => some .globalTarget
  | .workspaceScope folder =>
      if folder.isEmpty then none else some (.workspaceTarget folder)

/-- Model of `String.prototype.trim`: drop leading and trailing whitespace.
(Lean's own `String.trim` is byte-position based and does not reduce inside
the kernel, so the embedding carries this explicit character-list version.) -/
def jsTrim (s : String) : String :=
  ⟨((s.data.dropWhile Char.isWhitespace).reverse.dropWhile Char.isWhitespace).reverse⟩

/-- Model of `handleWebviewCreate` from `src/adapters/webviewRouter.ts`:
resolve the target, trim the title, silently decline when either is invalid,
otherwise create, append, and persist. Returns the `mutated` flag with the
next repository state. -/
def handleWebviewCreate (repo : RepoState) (scope : WebviewScope) (title : String)
    (freshId : String) (now : Nat) : Except String (Bool × RepoState) :=
  match scopeFromWebviewScope scope with
  | none => .ok (false, repo)
  | some target =>
      let trimmed := jsTrim title
      if trimmed.isEmpty then .ok (false, repo)
      else do
        let todo ← createTodo repo
          { title := trimmed,
            scope := match target with
                     | .globalTarget => .globalScope
                     | .workspaceTarget _ => .workspaceScope,
            workspaceFolder := match target with
                               | .globalTarget => none
                               | .workspaceTarget folder => some folder,
            position := none } freshId now
        let todos ← readTodos repo target
        let repo2 ← persistTodos repo target (todos ++ [todo])
        pure (true, repo2)

/-- The scope target a `CreateTodoInput` addresses, used to state the
`nextPosition` contract against `readTodos`. -/
def targetOfInput (input : CreateTodoInput) : ScopeTarget :=
  match input.scope with
  | .globalScope => .globalTarget
  | .workspaceScope => .workspaceTarget (input.workspaceFolder.getD "")

/-- Timer phases of the auto-delete coordinator. A key is first armed with the
delay timer (`delayPhase`, holding the sanitized delay and fade durations);
when the delay fires, the slot is re-armed with the fade timer (`fadePhase`). -/
inductive TimerPhase
  | delayPhase (delayMs : Int) (fadeMs : Int)
  | fadePhase
deriving DecidableEq, Repr

/-- Observable state of the auto-delete coordinator: the `timers` map plus the
accumulated collaborator invocations (`sendCue` handler calls with their fade
duration, and `removeTodo` handler calls), each in invocation order. A map
entry corresponds exactly to an armed, not-yet-cleared `setTimeout` handle:
the host guarantees a cleared timer never fires. -/
structure SchedulerState where
  timers : List (String × TimerPhase)
  cues : List (String × Int)
  removals : List String
deriving DecidableEq, Repr

def emptyScheduler : SchedulerState :=
  { timers := [], cues := [], removals := [] }

def DEFAULT_AUTO_DELETE_DELAY_MS : Int := 1500
def DEFAULT_AUTO_DELETE_FADE_MS : Int := 750

/-- Model of `AutoDeleteCoordinator.sanitizeDelay`: a missing or negative
configured value falls back to the default. (`NaN` has no counterpart in this
integer model.) -/
def sanitizeDelay (value : Option Int) (defaultValue : Int) : Int :=
  match value with
  | none => defaultValue
  | some v => if v < 0 then defaultValue else v

/-- Model of `AutoDeleteCoordinator.buildKey`. -/
def buildKey (scope : ScopeTarget) (todoId : String) : String :=
  match scope with
  | .globalTarget => "global:" ++ todoId
  | .workspaceTarget folder => folder ++ ":" ++ todoId

/-- Model of the auto-delete configuration slice of `TodoConfig`. -/
structure TodoConfig where
  autoDeleteCompleted : Bool
  autoDeleteDelayMs : Option Int := none
  autoDeleteFadeMs : Option Int := none
deriving DecidableEq, Repr

/-- Model of `AutoDeleteCoordinator.cancel`: clear the pending timer for the
key, a no-op when none exists. -/
def cancelTimer (st : SchedulerState) (scope : ScopeTarget) (todoId : String) :
    SchedulerState :=
  match alistLookup st.timers (buildKey scope todoId) with
  | some _ => { st with timers := alistDelete st.timers (buildKey scope todoId) }
  | none => st

/-- Model of `AutoDeleteCoordinator.schedule`: with auto-delete disabled it
behaves as `cancel`; otherwise it cancels any existing timer for the key and
arms a fresh delay timer with the sanitized durations. -/
def scheduleTimer (st : SchedulerState) (scope : ScopeTarget) (todoId : String)
    (config : TodoConfig) : SchedulerState :=
  if !config.autoDeleteCompleted then cancelTimer st scope todoId
  else
    let delay := sanitizeDelay config.autoDeleteDelayMs DEFAULT_AUTO_DELETE_DELAY_MS
    let fadeDuration := sanitizeDelay config.autoDeleteFadeMs DEFAULT_AUTO_DELETE_FADE_MS
    let st1 := cancelTimer st scope todoId
    { st1 with timers :=
        alistSet st1.timers (buildKey scope todoId) (.delayPhase delay fadeDuration) }

/-- Model of `AutoDeleteCoordinator.cancelScope`. -/
def cancelScopeTimers (st : SchedulerState) (scope : ScopeTarget) (todos : List Todo) :
    SchedulerState :=
  todos.foldl (fun acc todo => cancelTimer acc scope todo.id) st

/-- The delay timer for `key` fires: the slot is re-armed with the fade timer
and the fade cue is sent. A key with no armed delay timer cannot fire (the
host never runs a cleared `setTimeout` callback). -/
def fireDelayTimer (st : SchedulerState) (key : String) : SchedulerState :=
  match alistLookup st.timers key with
  | some (.delayPhase _ fadeMs) =>
      { st with timers := alistSet st.timers key .fadePhase,
                cues := st.cues ++ [(key, fadeMs)] }
  | _ => st

/-- The fade timer for `key` fires: the slot is cleared and the removal
handler is invoked. -/
def fireFadeTimer (st : SchedulerState) (key : String) : SchedulerState :=
  match alistLookup st.timers key with
  | some .fadePhase =>
      { st with timers := alistDelete st.timers key,
                removals := st.removals ++ [key] }
  | _ => st

/-- Events the coordinator's world can perform after a point in time: host
timers firing, and further `cancel` / `schedule` calls. -/
inductive SchedulerEvent
  | fireDelay (key : String)
  | fireFade (key : String)
  | cancelFor (scope : ScopeTarget) (todoId : String)
  | scheduleFor (scope : ScopeTarget) (todoId : String) (config : TodoConfig)

def schedulerStep (st : SchedulerState) : SchedulerEvent → SchedulerState
  | .fireDelay key => fireDelayTimer st key
  | .fireFade key => fireFadeTimer st key
  | .cancelFor scope todoId => cancelTimer st scope todoId
  | .scheduleFor scope todoId config => scheduleTimer st scope todoId config

def schedulerRun (st : SchedulerState) (events : List SchedulerEvent) : SchedulerState :=
  events.foldl schedulerStep st

/-- Whether an event can newly arm a timer for `key`: only an enabled
`schedule` call for that exact key can. -/
def eventArmsKey : SchedulerEvent → String → Bool
  | .scheduleFor scope todoId config, key =>
      config.autoDeleteCompleted && (buildKey scope todoId == key)
  | _, _ => false

/-- Model of one webview channel of `TodoWebviewProvider`
(`src/todoWebviewHost.ts`): `hasView` is whether `resolveWebviewView` has run,
`pendingMessages` is the readiness buffer, and `delivered` records the
messages actually posted to the underlying webview, in order. -/
structure ChannelState (μ : Type) where
  hasView : Bool
  ready : Bool
  pendingMessages : List μ
  delivered : List μ
deriving DecidableEq, Repr

/-- Model of `TodoWebviewProvider.postMessage`: buffer when the view is absent
or not yet ready, deliver immediately otherwise. -/
def channelPost {μ : Type} (st : ChannelState μ) (message : μ) : ChannelState μ :=
  if !st.hasView || !st.ready then
    { st with pendingMessages := st.pendingMessages ++ [message] }
  else { st with delivered := st.delivered ++ [message] }

/-- Model of `TodoWebviewProvider.flushPendingMessages`: deliver the whole
buffer in FIFO order. -/
def channelFlush {μ : Type} (st : ChannelState μ) : ChannelState μ :=
  if !st.hasView || !st.ready || st.pendingMessages.isEmpty then st
  else { st with pendingMessages := [],
                 delivered := st.delivered ++ st.pendingMessages }

/-- Model of `TodoWebviewProvider.markReady`: set the flag, then flush. -/
def channelMarkReady {μ : Type} (st : ChannelState μ) : ChannelState μ :=
  channelFlush { st with ready := true }

/-- Model of the mutating core of `removeTodoWithUndo`
(`src/services/todoOperations.ts`): read the bucket, decline when the id is
absent, otherwise cancel the auto-delete timer, capture the undo snapshot of
the whole bucket, and persist the bucket without the item. The returned flag
is the function's `mutated` result; the notification / undo affordance that
follows the write is an external collaborator and is modelled separately
(consuming the snapshot restores it, see `consumeSnapshot`). -/
def removeTodoCore (repo : RepoState) (sched : SchedulerState) (scope : ScopeTarget)
    (todoId : String) : Except String (Bool × RepoState × SchedulerState) := do
  let todos ← readTodos repo scope
  match todos.find? (fun item => item.id == todoId) with
  | none => pure (false, repo, sched)
  | some _ => do
      let sched1 := cancelTimer sched scope todoId
      let key ← scopeKeyOfTarget scope
      let repo1 := captureSnapshot repo key todos
      let repo2 ← persistTodos repo1 scope (todos.filter (fun item => !(item.id == todoId)))
      pure (true, repo2, sched1)

/-- Observable outcome of a `clearScope` call: whether the confirmation
collaborator was invoked, whether the "already empty" notice was shown, how
many state rebroadcasts happened, and the resulting repository and scheduler
states. -/
structure ClearOutcome where
  askedConfirm : Bool
  showedEmptyNotice : Bool
  broadcasts : Nat
  repo : RepoState
  sched : SchedulerState
deriving DecidableEq, Repr

/-- Model of `clearScope` from `src/services/todoOperations.ts`. External
choices are explicit: `confirmSetting` is the `todo.confirmDestructiveActions`
configuration value, `userConfirms` the answer to the modal warning, and
`userUndoes` whether the user picks Undo on the success notification. In the
decline branch the 10-second snapshot cleanup is only scheduled, so the
snapshot is still present in the returned state. -/
def clearScope (repo : RepoState) (sched : SchedulerState) (scope : ScopeTarget)
    (confirmSetting : Bool) (userConfirms : Bool) (userUndoes : Bool) :
    Except String ClearOutcome := do
  let todos ← readTodos repo scope
  if todos.isEmpty then
    return { askedConfirm := false, showedEmptyNotice := true, broadcasts := 0,
             repo := repo, sched := sched }
  let sched1 := cancelScopeTimers sched scope todos
  let askedConfirm := confirmSetting && todos.length > 1
  if askedConfirm && !userConfirms then
    return { askedConfirm := true, showedEmptyNotice := false, broadcasts := 0,
             repo := repo, sched := sched1 }
  let key ← scopeKeyOfTarget scope
  let repo1 := captureSnapshot repo key todos
  let repo2 ← persistTodos repo1 scope []
  if userUndoes then
    let consumed := consumeSnapshot repo2 key
    match consumed.1 with
    | some snapshot => do
        let repo3 ← persistTodos consumed.2 scope snapshot
        return { askedConfirm := askedConfirm, showedEmptyNotice := false,
                 broadcasts := 2, repo := repo3, sched := sched1 }
    | none =>
        return { askedConfirm := askedConfirm, showedEmptyNotice := false,
                 broadcasts := 1, repo := consumed.2, sched := sched1 }
  else
    return { askedConfirm := askedConfirm, showedEmptyNotice := false,
             broadcasts := 1, repo := repo2, sched := sched1 }

/-- Demo todo A(pos 1) of the spec's reorder example, with a recognizable
pre-operation `updatedAt`. -/
def todoA : Todo :=
  { id := "a", title := "A", completed := false, scope := .globalScope,
    workspaceFolder := none, position := 1, createdAt := 1, updatedAt := 11 }

/-- Demo todo B(pos 2). -/
def todoB : Todo :=
  { todoA with id := "b", title := "B", position := 2, updatedAt := 12 }

/-- Demo todo C(pos 3). -/
def todoC : Todo :=
  { todoA with id := "c", title := "C", position := 3, updatedAt := 13 }

/-- A repository whose global bucket was persisted from the out-of-order list
`[C, A]`. -/
def demoPersisted : RepoState :=
  saveGlobalTodos emptyRepo (normalizePositions [todoC, todoA])

/-- A repository whose global bucket holds `[A, B]` verbatim. -/
def demoRepoAB : RepoState := saveGlobalTodos emptyRepo [todoA, todoB]

/-- A repository whose global bucket holds just `[A]`. -/
def demoRepoOne : RepoState := saveGlobalTodos emptyRepo [todoA]

/-- A repository whose global bucket holds one todo at position 4, so the next
created todo gets position 5. -/
def demoRepoHi : RepoState :=
  saveGlobalTodos emptyRepo [{ todoA with id := "h", position := 4 }]

/-- The repository state produced by removing todo `a` from `demoRepoAB`
through `removeTodoCore`. -/
def demoRemovedRepo : RepoState :=
  ((removeTodoCore demoRepoAB emptyScheduler .globalTarget "a").toOption.getD
    (false, demoRepoAB, emptyScheduler)).2.1


/-- The todo created by `createTodo` on `demoRepoHi` with a fresh id at time 7. -/
def demoCreated : Todo :=
  (createTodo demoRepoHi { title := "T", scope := .globalScope } "id-9" 7).toOption.getD
    todoA

/-- A concrete not-yet-ready channel holding two buffered messages. -/
def demoChannel : ChannelState Nat :=
  { hasView := true, ready := false, pendingMessages := [1, 2], delivered := [] }

/-- A concrete ready channel with an empty buffer. -/
def demoReadyChannel : ChannelState Nat :=
  { hasView := true, ready := true, pendingMessages := [], delivered := [9] }

theorem alistLookup_nil {α : Type} (key : String) :
    alistLookup ([] : List (String × α)) key = none := rfl

theorem alistLookup_cons {α : Type} (entry : String × α) (rest : List (String × α))
    (key : String) :
    alistLookup (entry :: rest) key =
      if entry.1 = key then some entry.2 else alistLookup rest key := by
  simp only [alistLookup, List.find?]
  by_cases h : entry.1 = key
  · simp [h]
  · simp [h, beq_eq_false_iff_ne.mpr h]

theorem alistSet_cons {α : Type} (entry : String × α) (rest : List (String × α))
    (key : String) (value : α) :
    alistSet (entry :: rest) key value =
      if entry.1 = key then (key, value) :: rest else entry :: alistSet rest key value := by
  by_cases h : entry.1 = key
  · simp [alistSet, h]
  · simp [alistSet, h, beq_eq_false_iff_ne.mpr h]

theorem alistDelete_cons {α : Type} (entry : String × α) (rest : List (String × α))
    (key : String) :
    alistDelete (entry :: rest) key =
      if entry.1 = key then alistDelete rest key else entry :: alistDelete rest key := by
  by_cases h : entry.1 = key
  · simp [alistDelete, List.filter, h]
  · simp [alistDelete, List.filter, beq_eq_false_iff_ne.mpr h, h]

theorem alistLookup_set_self {α : Type} (entries : List (String × α)) (key : String)
    (value : α) : alistLookup (alistSet entries key value) key = some value := by
  induction entries with
  | nil => simp [alistSet, alistLookup_cons]
  | cons entry rest ih =>
      rw [alistSet_cons]
      by_cases h : entry.1 = key
      · simp [h, alistLookup_cons]
      · simp [h, alistLookup_cons, ih]

theorem alistLookup_set_ne {α : Type} (entries : List (String × α)) (key key' : String)
    (value : α) (h : key' ≠ key) :
    alistLookup (alistSet entries key value) key' = alistLookup entries key' := by
  induction entries with
  | nil => simp [alistSet, alistLookup_cons, alistLookup_nil, Ne.symm h]
  | cons entry rest ih =>
      rw [alistSet_cons]
      by_cases he : entry.1 = key
      · rw [if_pos he, alistLookup_cons, alistLookup_cons, if_neg (Ne.symm h), if_neg]
        rw [he]
        exact Ne.symm h
      · rw [if_neg he, alistLookup_cons, alistLookup_cons, ih]

theorem alistLookup_delete_self {α : Type} (entries : List (String × α)) (key : String) :
    alistLookup (alistDelete entries key) key = none := by
  induction entries with
  | nil => rfl
  | cons entry rest ih =>
      rw [alistDelete_cons]
      by_cases h : entry.1 = key
      · simpa [h] using ih
      · rw [if_neg h, alistLookup_cons, if_neg h]
        exact ih

theorem alistLookup_delete_ne {α : Type} (entries : List (String × α)) (key key' : String)
    (h : key' ≠ key) :
    alistLookup (alistDelete entries key) key' = alistLookup entries key' := by
  induction entries with
  | nil => rfl
  | cons entry rest ih =>
      rw [alistDelete_cons]
      by_cases he : entry.1 = key
      · rw [if_pos he, alistLookup_cons, if_neg, ih]
        rw [he]
        exact Ne.symm h
      · rw [if_neg he, alistLookup_cons, alistLookup_cons, ih]

theorem alistDelete_of_lookup_none {α : Type} (entries : List (String × α)) (key : String)
    (h : alistLookup entries key = none) : alistDelete entries key = entries := by
  induction entries with
  | nil => rfl
  | cons entry rest ih =>
      rw [alistLookup_cons] at h
      by_cases he : entry.1 = key
      · simp [he] at h
      · rw [if_neg he] at h
        rw [alistDelete_cons, if_neg he, ih h]

theorem alistSet_of_lookup_none {α : Type} (entries : List (String × α)) (key : String)
    (value : α) (h : alistLookup entries key = none) :
    alistSet entries key value = entries ++ [(key, value)] := by
  induction entries with
  | nil => rfl
  | cons entry rest ih =>
      rw [alistLookup_cons] at h
      by_cases he : entry.1 = key
      · simp [he] at h
      · rw [if_neg he] at h
        rw [alistSet_cons, if_neg he, ih h, List.cons_append]

theorem alistLookup_eq_none_of_forall {α : Type} (entries : List (String × α))
    (key : String) (h : ∀ entry ∈ entries, entry.1 ≠ key) :
    alistLookup entries key = none := by
  induction entries with
  | nil => rfl
  | cons entry rest ih =>
      rw [alistLookup_cons, if_neg (h entry (by simp))]
      exact ih (fun e he => h e (by simp [he]))

theorem mem_of_alistLookup_eq_some {α : Type} {entries : List (String × α)}
    {key : String} {value : α} (h : alistLookup entries key = some value) :
    (key, value) ∈ entries := by
  induction entries with
  | nil => simp [alistLookup_nil] at h
  | cons entry rest ih =>
      rw [alistLookup_cons] at h
      by_cases he : entry.1 = key
      · rw [if_pos he] at h
        cases entry
        simp only [Option.some.injEq] at h
        simp only at he
        rw [he, h]
        exact List.mem_cons_self _ _
      · rw [if_neg he] at h
        exact List.mem_cons_of_mem _ (ih h)

theorem perm_cons_delete {α : Type} {entries : List (String × α)} {key : String}
    {value : α} (hnd : (entries.map Prod.fst).Nodup)
    (h : alistLookup entries key = some value) :
    entries.Perm ((key, value) :: alistDelete entries key) := by
  induction entries with
  | nil => simp [alistLookup_nil] at h
  | cons entry rest ih =>
      rw [alistLookup_cons] at h
      rw [alistDelete_cons]
      by_cases he : entry.1 = key
      · rw [if_pos he] at h
        rw [if_pos he]
        have hrest : alistLookup rest key = none := by
          apply alistLookup_eq_none_of_forall
          intro e hme
          simp only [List.map, List.nodup_cons] at hnd
          intro hk
          exact hnd.1 (he ▸ hk ▸ (List.mem_map_of_mem Prod.fst hme))
        rw [alistDelete_of_lookup_none rest key hrest]
        cases entry
        simp at he h
        simp [he, h]
      · rw [if_neg he] at h
        rw [if_neg he]
        refine List.Perm.trans (List.Perm.cons _ (ih ?_ h)) (List.Perm.swap _ _ _)
        simp only [List.map, List.nodup_cons] at hnd
        exact hnd.2

theorem insertByPosition_perm (t : Todo) (l : List Todo) :
    (insertByPosition t l).Perm (t :: l) := by
  induction l with
  | nil => exact List.Perm.refl _
  | cons x xs ih =>
      rw [insertByPosition]
      by_cases h : x.position < t.position
      · rw [if_pos h]
        exact List.Perm.trans (List.Perm.cons x ih) (List.Perm.swap t x xs)
      · rw [if_neg h]

theorem sortByPosition_perm (l : List Todo) : (sortByPosition l).Perm l := by
  induction l with
  | nil => exact List.Perm.refl _
  | cons t ts ih =>
      exact List.Perm.trans (insertByPosition_perm t (sortByPosition ts))
        (List.Perm.cons t ih)

theorem insertByPosition_pairwise (t : Todo) (l : List Todo)
    (h : List.Pairwise (fun a b => a.position ≤ b.position) l) :
    List.Pairwise (fun a b => a.position ≤ b.position) (insertByPosition t l) := by
  induction l with
  | nil => simp [insertByPosition]
  | cons x xs ih =>
      rw [insertByPosition]
      rw [List.pairwise_cons] at h
      by_cases hx : x.position < t.position
      · rw [if_pos hx]
        rw [List.pairwise_cons]
        constructor
        · intro b hb
          have hmem := (insertByPosition_perm t xs).mem_iff.mp hb
          rw [List.mem_cons] at hmem
          rcases hmem with rfl | hmem
          · exact le_of_lt hx
          · exact h.1 b hmem
        · exact ih h.2
      · rw [if_neg hx]
        rw [List.pairwise_cons]
        refine ⟨?_, List.pairwise_cons.mpr h⟩
        intro b hb
        rcases List.mem_cons.mp hb with rfl | hb
        · exact le_of_not_lt hx
        · exact le_trans (le_of_not_lt hx) (h.1 b hb)

theorem sortByPosition_pairwise (l : List Todo) :
    List.Pairwise (fun a b => a.position ≤ b.position) (sortByPosition l) := by
  induction l with
  | nil => simp [sortByPosition]
  | cons t ts ih => exact insertByPosition_pairwise t (sortByPosition ts) ih

theorem filter_insertByPosition (t : Todo) (l : List Todo) (p : Int) :
    (insertByPosition t l).filter (fun x => x.position == p) =
      (t :: l).filter (fun x => x.position == p) := by
  induction l with
  | nil => rfl
  | cons x xs ih =>
      rw [insertByPosition]
      by_cases hx : x.position < t.position
      · rw [if_pos hx]
        by_cases ht : t.position = p <;> by_cases hxp : x.position = p
        · exact absurd hxp (by omega)
        · simp only [List.filter_cons, beq_iff_eq, ht, hxp] at ih ⊢
          simp only [decide_True, decide_False, if_true, if_false] at ih ⊢
          rw [ih]
        · simp only [List.filter_cons, beq_iff_eq, ht, hxp] at ih ⊢
          simp only [decide_True, decide_False, if_true, if_false] at ih ⊢
          rw [ih]
        · simp only [List.filter_cons, beq_iff_eq, ht, hxp] at ih ⊢
          simp only [decide_True, decide_False, if_true, if_false] at ih ⊢
          rw [ih]
      · rw [if_neg hx]

theorem filter_sortByPosition (l : List Todo) (p : Int) :
    (sortByPosition l).filter (fun x => x.position == p) =
      l.filter (fun x => x.position == p) := by
  induction l with
  | nil => rfl
  | cons t ts ih =>
      rw [sortByPosition, filter_insertByPosition]
      rw [List.filter_cons, List.filter_cons, ih]

theorem assignSeqPositions_map_position (start : Nat) (l : List Todo) :
    (assignSeqPositions start l).map Todo.position =
      (List.range l.length).map (fun j => ((start + j : Nat) : Int) + 1) := by
  induction l generalizing start with
  | nil => rfl
  | cons todo rest ih =>
      simp only [assignSeqPositions, List.map, List.length_cons,
        List.range_succ_eq_map, List.map_cons, List.map_map, List.cons.injEq]
      constructor
      · simp
      · rw [ih (start + 1)]
        apply List.map_congr_left
        intro j hj
        simp only [Function.comp]
        push_cast
        ring

theorem assignSeqPositions_map_id (start : Nat) (l : List Todo) :
    (assignSeqPositions start l).map Todo.id = l.map Todo.id := by
  induction l generalizing start with
  | nil => rfl
  | cons todo rest ih => simp [assignSeqPositions, ih]

theorem assignSeqPositions_length (start : Nat) (l : List Todo) :
    (assignSeqPositions start l).length = l.length := by
  induction l generalizing start with
  | nil => rfl
  | cons todo rest ih => simp [assignSeqPositions, ih]

theorem assignPositions_fst_map_position (now : Nat) (start : Nat) (l : List Todo) :
    ((assignPositions now start l).1).map Todo.position =
      (List.range l.length).map (fun j => ((start + j : Nat) : Int) + 1) := by
  induction l generalizing start with
  | nil => rfl
  | cons todo rest ih =>
      rw [assignPositions]
      by_cases h : todo.position = (start : Int) + 1
      · rw [if_pos h]
        simp only [List.map, List.length_cons, List.range_succ_eq_map, List.map_cons,
          List.map_map, List.cons.injEq]
        constructor
        · simpa using h
        · rw [ih (start + 1)]
          apply List.map_congr_left
          intro j hj
          simp only [Function.comp]
          push_cast
          ring
      · rw [if_neg h]
        simp only [List.map, List.length_cons, List.range_succ_eq_map, List.map_cons,
          List.map_map, List.cons.injEq]
        constructor
        · simp
        · rw [ih (start + 1)]
          apply List.map_congr_left
          intro j hj
          simp only [Function.comp]
          push_cast
          ring

theorem assignPositions_fst_map_id (now : Nat) (start : Nat) (l : List Todo) :
    ((assignPositions now start l).1).map Todo.id = l.map Todo.id := by
  induction l generalizing start with
  | nil => rfl
  | cons todo rest ih =>
      rw [assignPositions]
      by_cases h : todo.position = (start : Int) + 1
      · rw [if_pos h]
        simp [ih]
      · rw [if_neg h]
        simp [ih]

theorem assignPositions_forall₂ (now : Nat) (start : Nat) (l : List Todo) :
    List.Forall₂
      (fun before after =>
        (after.position = before.position → after = before) ∧
        (after.position ≠ before.position → after.updatedAt = now))
      l ((assignPositions now start l).1) := by
  induction l generalizing start with
  | nil => exact List.Forall₂.nil
  | cons todo rest ih =>
      rw [assignPositions]
      by_cases h : todo.position = (start : Int) + 1
      · rw [if_pos h]
        refine List.Forall₂.cons ⟨fun _ => rfl, fun hne => absurd rfl hne⟩ (ih (start + 1))
      · rw [if_neg h]
        refine List.Forall₂.cons ⟨?_, fun _ => rfl⟩ (ih (start + 1))
        intro heq
        simp only at heq
        exact absurd heq.symm h

theorem assignPositions_snd_eq_false_iff (now : Nat) (start : Nat) (l : List Todo) :
    (assignPositions now start l).2 = false ↔ (assignPositions now start l).1 = l := by
  induction l generalizing start with
  | nil => simp [assignPositions]
  | cons todo rest ih =>
      rw [assignPositions]
      by_cases h : todo.position = (start : Int) + 1
      · rw [if_pos h]
        simp only [List.cons.injEq, true_and]
        exact ih (start + 1)
      · rw [if_neg h]
        simp only [List.cons.injEq]
        constructor
        · intro hfalse
          cases hfalse
        · intro hcontr
          exfalso
          have := hcontr.1
          have hpos : ({ todo with position := (start : Int) + 1, updatedAt := now } : Todo).position = todo.position := by
            rw [this]
          simp only at hpos
          exact h (hpos ▸ rfl)

theorem alistLookup_append {α : Type} (l₁ l₂ : List (String × α)) (key : String) :
    alistLookup (l₁ ++ l₂) key =
      match alistLookup l₁ key with
      | some v => some v
      | none => alistLookup l₂ key := by
  induction l₁ with
  | nil => simp [alistLookup_nil]
  | cons entry rest ih =>
      rw [List.cons_append, alistLookup_cons, alistLookup_cons]
      by_cases h : entry.1 = key
      · simp [h]
      · simp [h, ih]

theorem alistLookup_eq_none_iff {α : Type} (entries : List (String × α)) (key : String) :
    alistLookup entries key = none ↔ key ∉ entries.map Prod.fst := by
  induction entries with
  | nil => simp [alistLookup_nil]
  | cons entry rest ih =>
      rw [alistLookup_cons]
      by_cases h : entry.1 = key
      · simp [h]
      · simp [h, ih, Ne.symm h]

theorem alistDelete_keys_sublist {α : Type} (entries : List (String × α)) (key : String) :
    ((alistDelete entries key).map Prod.fst).Sublist (entries.map Prod.fst) :=
  List.Sublist.map Prod.fst (List.filter_sublist entries)

theorem alistDelete_keys_nodup {α : Type} (entries : List (String × α)) (key : String)
    (h : (entries.map Prod.fst).Nodup) : ((alistDelete entries key).map Prod.fst).Nodup :=
  h.sublist (alistDelete_keys_sublist entries key)

theorem mem_of_mem_alistDelete {α : Type} {entries : List (String × α)} {key : String}
    {entry : String × α} (h : entry ∈ alistDelete entries key) : entry ∈ entries :=
  (List.mem_filter.mp h).1

theorem mem_keys_alistDelete {α : Type} (entries : List (String × α)) (key other : String)
    (h : other ≠ key) :
    (other ∈ (alistDelete entries key).map Prod.fst) ↔ other ∈ entries.map Prod.fst := by
  constructor
  · intro hmem
    exact (alistDelete_keys_sublist entries key).mem hmem
  · intro hmem
    rcases List.mem_map.mp hmem with ⟨entry, hentry, hfst⟩
    apply List.mem_map.mpr
    refine ⟨entry, ?_, hfst⟩
    apply List.mem_filter.mpr
    refine ⟨hentry, ?_⟩
    simp only [Bool.not_eq_true']
    exact beq_eq_false_iff_ne.mpr (fun hk => h (hfst ▸ hk ▸ rfl))

theorem buildLookup_go (l : List Todo) (acc : List (String × Todo))
    (hdisj : ∀ t ∈ l, alistLookup acc t.id = none)
    (hnd : (l.map Todo.id).Nodup) :
    l.foldl (fun lookup todo => alistSet lookup todo.id todo) acc
      = acc ++ l.map (fun t => (t.id, t)) := by
  induction l generalizing acc with
  | nil => simp
  | cons t ts ih =>
      rw [List.foldl_cons, alistSet_of_lookup_none acc t.id t (hdisj t (by simp))]
      rw [List.map_cons]
      rw [ih (acc ++ [(t.id, t)])]
      · simp
      · intro u hu
        rw [alistLookup_append]
        rw [hdisj u (by simp [hu])]
        rw [alistLookup_cons]
        simp only [List.map, List.nodup_cons] at hnd
        rw [if_neg]
        · rfl
        · intro hk
          simp only at hk
          exact hnd.1 (hk ▸ List.mem_map_of_mem Todo.id hu)
      · simp only [List.map, List.nodup_cons] at hnd
        exact hnd.2

theorem buildLookup_eq (todos : List Todo) (hnd : (todos.map Todo.id).Nodup) :
    buildLookup todos = todos.map (fun t => (t.id, t)) := by
  rw [buildLookup, buildLookup_go todos [] (fun t _ => rfl) hnd, List.nil_append]

theorem takeByOrder_perm (order : List String) (m : List (String × Todo))
    (hnd : (m.map Prod.fst).Nodup) :
    ((takeByOrder m order).1 ++ ((takeByOrder m order).2).map Prod.snd).Perm
      (m.map Prod.snd) := by
  induction order generalizing m with
  | nil => simp [takeByOrder]
  | cons id rest ih =>
      rw [takeByOrder]
      cases h : alistLookup m id with
      | none => exact ih m hnd
      | some todo =>
          simp only [List.cons_append]
          have hperm := ih (alistDelete m id) (alistDelete_keys_nodup m id hnd)
          have hm := perm_cons_delete hnd h
          have hsnd := hm.map Prod.snd
          simp only [List.map_cons] at hsnd
          exact List.Perm.trans (List.Perm.cons todo hperm) hsnd.symm

theorem ne_of_mem_keys_alistDelete {α : Type} {entries : List (String × α)}
    {key k : String} (h : k ∈ (alistDelete entries key).map Prod.fst) : k ≠ key := by
  rcases List.mem_map.mp h with ⟨entry, hentry, rfl⟩
  have hp := (List.mem_filter.mp hentry).2
  simp only [Bool.not_eq_true'] at hp
  exact beq_eq_false_iff_ne.mp hp

theorem dedupFirstAux_not_mem (l : List String) (seen : List String) :
    ∀ i ∈ dedupFirstAux seen l, seen.contains i = false := by
  induction l generalizing seen with
  | nil => intro i hi; cases hi
  | cons x xs ih =>
      intro i hi
      rw [dedupFirstAux] at hi
      by_cases hx : seen.contains x = true
      · rw [if_pos hx] at hi
        exact ih seen i hi
      · rw [if_neg hx] at hi
        rcases List.mem_cons.mp hi with rfl | hi
        · simpa using hx
        · have hcons := ih (x :: seen) i hi
          simp only [List.contains_cons, Bool.or_eq_false_iff] at hcons
          exact hcons.2

theorem takeByOrder_taken_ids_aux (order : List String) (m : List (String × Todo))
    (seen : List String)
    (hnd : (m.map Prod.fst).Nodup) (hv : ∀ e ∈ m, e.2.id = e.1)
    (hdisj : ∀ k ∈ m.map Prod.fst, seen.contains k = false) :
    ((takeByOrder m order).1).map Todo.id =
      (dedupFirstAux seen order).filter (fun i => (m.map Prod.fst).contains i) := by
  induction order generalizing m seen with
  | nil => rfl
  | cons id rest ih =>
      rw [takeByOrder, dedupFirstAux]
      cases h : alistLookup m id with
      | some todo =>
          have hmem : (id, todo) ∈ m := mem_of_alistLookup_eq_some h
          have hk : id ∈ m.map Prod.fst := List.mem_map_of_mem Prod.fst hmem
          have hseen : seen.contains id = false := hdisj id hk
          rw [if_neg (by rw [hseen]; exact Bool.false_ne_true)]
          rw [List.map_cons, List.filter_cons, if_pos (by simpa using hk)]
          have hid : todo.id = id := hv (id, todo) hmem
          rw [hid]
          have hdisj2 : ∀ k ∈ (alistDelete m id).map Prod.fst,
              (id :: seen).contains k = false := by
            intro k hkmem
            have hne : k ≠ id := ne_of_mem_keys_alistDelete hkmem
            have hkm : k ∈ m.map Prod.fst := (alistDelete_keys_sublist m id).mem hkmem
            simp only [List.contains_cons, Bool.or_eq_false_iff]
            exact ⟨beq_eq_false_iff_ne.mpr hne, hdisj k hkm⟩
          have ihh := ih (alistDelete m id) (id :: seen)
            (alistDelete_keys_nodup m id hnd)
            (fun e he => hv e (mem_of_mem_alistDelete he)) hdisj2
          rw [ihh]
          apply congrArg
          apply List.filter_congr
          intro i hi
          have hicons := dedupFirstAux_not_mem rest (id :: seen) i hi
          simp only [List.contains_cons, Bool.or_eq_false_iff] at hicons
          have hne : i ≠ id := beq_eq_false_iff_ne.mp hicons.1
          rw [Bool.eq_iff_iff]
          simp only [List.contains_iff_exists_mem_beq]
          constructor
          · intro hex
            rcases hex with ⟨a, ha, hbeq⟩
            exact ⟨a, (alistDelete_keys_sublist m id).mem ha, hbeq⟩
          · intro hex
            rcases hex with ⟨a, ha, hbeq⟩
            have hia : i = a := beq_iff_eq.mp hbeq
            refine ⟨a, ?_, hbeq⟩
            exact (mem_keys_alistDelete m id a (hia ▸ hne)).mpr ha
      | none =>
          have hnk : id ∉ m.map Prod.fst := (alistLookup_eq_none_iff m id).mp h
          by_cases hseen : seen.contains id = true
          · rw [if_pos hseen]
            exact ih m seen hnd hv hdisj
          · rw [if_neg hseen]
            rw [List.filter_cons, if_neg (by simpa using hnk)]
            have hdisj2 : ∀ k ∈ m.map Prod.fst, (id :: seen).contains k = false := by
              intro k hkm
              have hne : k ≠ id := fun hkk => hnk (hkk ▸ hkm)
              simp only [List.contains_cons, Bool.or_eq_false_iff]
              exact ⟨beq_eq_false_iff_ne.mpr hne, hdisj k hkm⟩
            exact ih m (id :: seen) hnd hv hdisj2

theorem takeByOrder_taken_ids (order : List String) (m : List (String × Todo))
    (hnd : (m.map Prod.fst).Nodup) (hv : ∀ e ∈ m, e.2.id = e.1) :
    ((takeByOrder m order).1).map Todo.id =
      (dedupFirst order).filter (fun i => (m.map Prod.fst).contains i) :=
  takeByOrder_taken_ids_aux order m [] hnd hv (fun _ _ => rfl)

theorem takeByOrder_remaining (order : List String) (m : List (String × Todo))
    (hnd : (m.map Prod.fst).Nodup) :
    (takeByOrder m order).2 = m.filter (fun e => !(order.contains e.1)) := by
  induction order generalizing m with
  | nil => simp [takeByOrder]
  | cons id rest ih =>
      rw [takeByOrder]
      cases h : alistLookup m id with
      | none =>
          rw [ih m hnd]
          apply List.filter_congr
          intro e he
          have hne : e.1 ≠ id := by
            intro hk
            exact (alistLookup_eq_none_iff m id).mp h (hk ▸ List.mem_map_of_mem Prod.fst he)
          simp [List.contains_cons, beq_eq_false_iff_ne.mpr hne, hne]
      | some todo =>
          rw [ih (alistDelete m id) (alistDelete_keys_nodup m id hnd)]
          rw [alistDelete]
          rw [List.filter_filter]
          apply List.filter_congr
          intro e he
          by_cases hid : e.1 = id
          · simp [List.contains_cons, hid, Bool.and_comm]
          · simp [List.contains_cons, hid, beq_eq_false_iff_ne.mpr hid, Bool.and_comm]

theorem exceptBind_ok {ε α β : Type} (a : α) (k : α → Except ε β) :
    (Except.ok a : Except ε α) >>= k = k a := rfl

theorem exceptBind_error {ε α β : Type} (e : ε) (k : α → Except ε β) :
    (Except.error e : Except ε α) >>= k = .error e := rfl

theorem exceptMap_ok {ε α β : Type} (h : α → β) (a : α) :
    h <$> (Except.ok a : Except ε α) = .ok (h a) := rfl

theorem exceptPure {ε α : Type} (a : α) : (pure a : Except ε α) = .ok a := rfl

theorem ensureWorkspaceFolder_ok (folder : String) (h : folder.isEmpty = false) :
    ensureWorkspaceFolder (some folder) = .ok folder := by
  simp [ensureWorkspaceFolder, h]

theorem saveWorkspaceTodos_eq (s : RepoState) (folder : String) (todos : List Todo)
    (h : folder.isEmpty = false) :
    saveWorkspaceTodos s folder todos =
      .ok { s with
            workspaceMemento :=
              some { version := SCHEMA_VERSION,
                     folders := alistSet (getWorkspaceState s).folders folder
                       (todos.map toEntity) } } := by
  simp [saveWorkspaceTodos, ensureWorkspaceFolder_ok folder h, exceptBind_ok, exceptPure]

theorem getWorkspaceTodos_eq (s : RepoState) (folder : String) (h : folder.isEmpty = false) :
    getWorkspaceTodos s folder =
      .ok (((alistLookup (getWorkspaceState s).folders folder).getD []).map
        (toTodo .workspaceScope (some folder))) := by
  simp [getWorkspaceTodos, ensureWorkspaceFolder_ok folder h, exceptBind_ok, exceptPure]

theorem persistTodos_undoSnapshots (s : RepoState) (scope : ScopeTarget)
    (todos : List Todo) (s' : RepoState) (h : persistTodos s scope todos = .ok s') :
    s'.undoSnapshots = s.undoSnapshots := by
  cases scope with
  | globalTarget =>
      simp only [persistTodos, Except.ok.injEq] at h
      rw [← h]
      rfl
  | workspaceTarget folder =>
      by_cases hf : folder.isEmpty
      · simp [persistTodos, saveWorkspaceTodos, ensureWorkspaceFolder, hf,
          exceptBind_error] at h
      · rw [persistTodos, saveWorkspaceTodos_eq s folder _ (by simpa using hf)] at h
        simp only [Except.ok.injEq] at h
        rw [← h]

theorem persist_read_roundtrip (s s' : RepoState) (scope : ScopeTarget)
    (todos stored : List Todo)
    (hw : persistTodos s scope todos = .ok s')
    (hr : readTodos s' scope = .ok stored) :
    stored.map Todo.id = (normalizePositions todos).map Todo.id ∧
    stored.map Todo.position = (normalizePositions todos).map Todo.position := by
  cases scope with
  | globalTarget =>
      simp only [persistTodos, Except.ok.injEq] at hw
      simp only [readTodos, Except.ok.injEq] at hr
      rw [← hw] at hr
      rw [← hr]
      simp only [getGlobalTodos, saveGlobalTodos, getGlobalState, SCHEMA_VERSION,
        if_pos, List.map_map]
      constructor
      · apply List.map_congr_left
        intro t _
        rfl
      · apply List.map_congr_left
        intro t _
        rfl
  | workspaceTarget folder =>
      by_cases hf : folder.isEmpty
      · simp [persistTodos, saveWorkspaceTodos, ensureWorkspaceFolder, hf,
          exceptBind_error] at hw
      · have hf' : folder.isEmpty = false := by simpa using hf
        rw [persistTodos, saveWorkspaceTodos_eq s folder _ hf'] at hw
        simp only [Except.ok.injEq] at hw
        rw [readTodos, getWorkspaceTodos_eq _ folder hf'] at hr
        simp only [Except.ok.injEq] at hr
        rw [← hw] at hr
        simp only [getWorkspaceState, SCHEMA_VERSION, if_pos] at hr
        rw [alistLookup_set_self] at hr
        simp only [Option.getD_some] at hr
        rw [← hr]
        simp only [List.map_map]
        constructor
        · apply List.map_congr_left
          intro t _
          rfl
        · apply List.map_congr_left
          intro t _
          rfl

/-- C1: for every todo list and every scope target, after `persistTodos` (the
single write path) completes, the stored bucket's `position` values are exactly
`1..N` (contiguous, no gaps or duplicates), and the items appear in the same
relative order as a stable ascending sort of their pre-write position values:
`sortByPosition` is proved to be that stable sort (a permutation, sorted by
`position`, preserving the relative order of equal positions). -/
theorem persistTodos_position_invariant (s s' : RepoState) (scope : ScopeTarget)
    (todos stored : List Todo)
    (hw : persistTodos s scope todos = .ok s')
    (hr : readTodos s' scope = .ok stored) :
    stored.map Todo.position = (List.range todos.length).map (fun j : Nat => (j : Int) + 1)
    ∧ stored.map Todo.id = (sortByPosition todos).map Todo.id
    ∧ (sortByPosition todos).Perm todos
    ∧ List.Pairwise (fun a b => a.position ≤ b.position) (sortByPosition todos)
    ∧ ∀ p : Int, (sortByPosition todos).filter (fun t => t.position == p)
        = todos.filter (fun t => t.position == p) := by
  obtain ⟨hid, hpos⟩ := persist_read_roundtrip s s' scope todos stored hw hr
  refine ⟨?_, ?_, sortByPosition_perm todos, sortByPosition_pairwise todos,
    fun p => filter_sortByPosition todos p⟩
  · rw [hpos, normalizePositions, assignSeqPositions_map_position,
      (sortByPosition_perm todos).length_eq]
    apply List.map_congr_left
    intro j hj
    norm_num
  · rw [hid, normalizePositions, assignSeqPositions_map_id]

/-- Witness for C1 at the concrete out-of-order global bucket `[C, A]`. -/
theorem persistTodos_position_invariant_witness :
    (getGlobalTodos demoPersisted).map Todo.position =
        (List.range ([todoC, todoA] : List Todo).length).map (fun j : Nat => (j : Int) + 1)
    ∧ (getGlobalTodos demoPersisted).map Todo.id = (sortByPosition [todoC, todoA]).map Todo.id
    ∧ (sortByPosition [todoC, todoA]).Perm [todoC, todoA]
    ∧ List.Pairwise (fun a b => a.position ≤ b.position) (sortByPosition [todoC, todoA])
    ∧ ∀ p : Int, (sortByPosition [todoC, todoA]).filter (fun t => t.position == p)
        = [todoC, todoA].filter (fun t => t.position == p) :=
  persistTodos_position_invariant emptyRepo demoPersisted .globalTarget [todoC, todoA]
    (getGlobalTodos demoPersisted) rfl rfl

theorem buildLookup_keys (todos : List Todo) (hids : (todos.map Todo.id).Nodup) :
    (buildLookup todos).map Prod.fst = todos.map Todo.id := by
  rw [buildLookup_eq todos hids, List.map_map]
  rfl

theorem buildLookup_values (todos : List Todo) (hids : (todos.map Todo.id).Nodup) :
    (buildLookup todos).map Prod.snd = todos := by
  rw [buildLookup_eq todos hids, List.map_map]
  exact List.map_id todos

theorem buildLookup_wellFormed (todos : List Todo) (hids : (todos.map Todo.id).Nodup) :
    ∀ e ∈ buildLookup todos, e.2.id = e.1 := by
  rw [buildLookup_eq todos hids]
  intro e he
  rcases List.mem_map.mp he with ⟨t, _, rfl⟩
  rfl

theorem reorderPermute_perm (todos : List Todo) (order : List String)
    (hids : (todos.map Todo.id).Nodup) :
    (reorderPermute todos order).Perm todos := by
  have hnd : ((buildLookup todos).map Prod.fst).Nodup := by
    rw [buildLookup_keys todos hids]
    exact hids
  have h := takeByOrder_perm order (buildLookup todos) hnd
  rw [buildLookup_values todos hids] at h
  exact h

/-- C2: for every todo list (with the data model's unique ids) and every id
order array — duplicates and unknown ids included — `reorderTodosByOrder`
places the items named by the order array first, in that order (each item at
its first occurrence, since a taken id is deleted from the lookup map; ids not
in the list are skipped), appends the unmentioned items in their prior
relative order, reassigns positions `1..N`, refreshes `updatedAt` exactly on
items whose position changed, and returns `true` iff some position changed. -/
theorem reorderTodosByOrder_spec (todos : List Todo) (order : List String) (now : Nat)
    (hids : (todos.map Todo.id).Nodup) :
    ((reorderTodosByOrder todos order now).1).map Todo.id =
        (dedupFirst order).filter (fun i => (todos.map Todo.id).contains i)
          ++ (todos.filter (fun t => !(order.contains t.id))).map Todo.id
    ∧ ((reorderTodosByOrder todos order now).1).map Todo.position =
        (List.range todos.length).map (fun j : Nat => (j : Int) + 1)
    ∧ (reorderPermute todos order).Perm todos
    ∧ List.Forall₂ (fun before after =>
        (after.position = before.position → after = before) ∧
        (after.position ≠ before.position → after.updatedAt = now))
        (reorderPermute todos order) ((reorderTodosByOrder todos order now).1)
    ∧ ((reorderTodosByOrder todos order now).2 = true ↔
        (reorderTodosByOrder todos order now).1 ≠ reorderPermute todos order) := by
  have hnd : ((buildLookup todos).map Prod.fst).Nodup := by
    rw [buildLookup_keys todos hids]
    exact hids
  have hperm := reorderPermute_perm todos order hids
  refine ⟨?_, ?_, hperm, ?_, ?_⟩
  · rw [reorderTodosByOrder, assignPositions_fst_map_id, reorderPermute]
    rw [List.map_append]
    rw [takeByOrder_taken_ids order (buildLookup todos) hnd
      (buildLookup_wellFormed todos hids)]
    rw [buildLookup_keys todos hids]
    rw [takeByOrder_remaining order (buildLookup todos) hnd]
    rw [buildLookup_eq todos hids]
    rw [List.filter_map (fun t : Todo => (t.id, t)) todos]
    rw [List.map_map, List.map_map]
    rfl
  · rw [reorderTodosByOrder, assignPositions_fst_map_position, hperm.length_eq]
    apply List.map_congr_left
    intro j hj
    norm_num
  · exact assignPositions_forall₂ now 0 (reorderPermute todos order)
  · have h := assignPositions_snd_eq_false_iff now 0 (reorderPermute todos order)
    rw [reorderTodosByOrder]
    constructor
    · intro htrue heq
      rw [h.mpr heq] at htrue
      cases htrue
    · intro hne
      cases hb : (assignPositions now 0 (reorderPermute todos order)).2 with
      | true => rfl
      | false => exact absurd (h.mp hb) hne

/-- Witness for C2 at the concrete list `[A, B, C]` with the order array
`[c, c, zz, a]`, which holds a duplicate id and an unknown id. -/
theorem reorderTodosByOrder_spec_witness :
    ((reorderTodosByOrder [todoA, todoB, todoC] ["c", "c", "zz", "a"] 99).1).map Todo.id =
        (dedupFirst ["c", "c", "zz", "a"]).filter
          (fun i => (([todoA, todoB, todoC] : List Todo).map Todo.id).contains i)
          ++ (([todoA, todoB, todoC] : List Todo).filter
                (fun t => !(["c", "c", "zz", "a"].contains t.id))).map Todo.id
    ∧ ((reorderTodosByOrder [todoA, todoB, todoC] ["c", "c", "zz", "a"] 99).1).map
        Todo.position =
        (List.range ([todoA, todoB, todoC] : List Todo).length).map
          (fun j : Nat => (j : Int) + 1)
    ∧ (reorderPermute [todoA, todoB, todoC] ["c", "c", "zz", "a"]).Perm
        [todoA, todoB, todoC]
    ∧ List.Forall₂ (fun before after =>
        (after.position = before.position → after = before) ∧
        (after.position ≠ before.position → after.updatedAt = 99))
        (reorderPermute [todoA, todoB, todoC] ["c", "c", "zz", "a"])
        ((reorderTodosByOrder [todoA, todoB, todoC] ["c", "c", "zz", "a"] 99).1)
    ∧ ((reorderTodosByOrder [todoA, todoB, todoC] ["c", "c", "zz", "a"] 99).2 = true ↔
        (reorderTodosByOrder [todoA, todoB, todoC] ["c", "c", "zz", "a"] 99).1 ≠
          reorderPermute [todoA, todoB, todoC] ["c", "c", "zz", "a"]) :=
  reorderTodosByOrder_spec [todoA, todoB, todoC] ["c", "c", "zz", "a"] 99 (by decide)

/-- C3 counterexample: on A(pos 1), B(pos 2), C(pos 3) with order `[c, a]` the
result is `[C, A, B]` with positions `[1, 2, 3]`, but every item's position
changed (B moved from 2 to 3), so all three `updatedAt` fields are refreshed —
B's `updatedAt` is not kept. -/
theorem reorder_example_updates_B :
    ((reorderTodosByOrder [todoA, todoB, todoC] [todoC.id, todoA.id] 99).1).map Todo.id =
        ["c", "a", "b"]
    ∧ ((reorderTodosByOrder [todoA, todoB, todoC] [todoC.id, todoA.id] 99).1).map
        Todo.position = [1, 2, 3]
    ∧ (∀ t ∈ (reorderTodosByOrder [todoA, todoB, todoC] [todoC.id, todoA.id] 99).1,
        t.updatedAt = 99)
    ∧ todoB.updatedAt ≠ 99 := by
  decide

/-- C3 amended: the example's order and positions are as the spec says, but
all three items (including B, whose position moves from 2 to 3) get a
refreshed `updatedAt`, and the call reports a change. -/
theorem reorder_example_amended :
    reorderTodosByOrder [todoA, todoB, todoC] [todoC.id, todoA.id] 99 =
      ([{ todoC with position := 1, updatedAt := 99 },
        { todoA with position := 2, updatedAt := 99 },
        { todoB with position := 3, updatedAt := 99 }], true) := by
  decide

/-- C10: for every todo list with distinct ids (the data model's id-uniqueness
invariant) and every order array — duplicate or unknown ids included — the
reordered list contains exactly the same todos (by id) as the input: a
permutation, nothing lost, nothing duplicated. -/
theorem reorderTodosByOrder_permutation (todos : List Todo) (order : List String)
    (now : Nat) (hids : (todos.map Todo.id).Nodup) :
    (((reorderTodosByOrder todos order now).1).map Todo.id).Perm (todos.map Todo.id) := by
  rw [reorderTodosByOrder, assignPositions_fst_map_id]
  exact (reorderPermute_perm todos order hids).map Todo.id

/-- Witness for C10 with an order array holding duplicate and unknown ids. -/
theorem reorderTodosByOrder_permutation_witness :
    ((((reorderTodosByOrder [todoA, todoB, todoC] ["c", "zz", "c", "a"] 99).1).map
        Todo.id)).Perm (([todoA, todoB, todoC] : List Todo).map Todo.id) :=
  reorderTodosByOrder_permutation [todoA, todoB, todoC] ["c", "zz", "c", "a"] 99
    (by decide)

theorem optFalsy_false {wf : Option String} (h : optFalsy wf = false) :
    ∃ f, wf = some f ∧ f.isEmpty = false := by
  cases wf with
  | none => cases h
  | some f => exact ⟨f, rfl, by simpa [optFalsy] using h⟩

theorem exceptThrow {ε α : Type} (e : ε) : (throw e : Except ε α) = .error e := rfl

theorem exists_ok_of_isOk {ε α : Type} {e : Except ε α} (h : e.isOk = true) :
    ∃ a, e = .ok a := by
  cases e with
  | error e => cases h
  | ok a => exact ⟨a, rfl⟩

theorem nextPosition_isOk_of (s : RepoState) (input : CreateTodoInput)
    (h : (input.scope == TodoScope.workspaceScope && optFalsy input.workspaceFolder)
      = false) :
    (nextPosition s input).isOk = true := by
  cases hs : input.scope with
  | globalScope =>
      cases hl : getGlobalTodos s with
      | nil => simp [nextPosition, hs, hl, exceptBind_ok, exceptPure, Except.isOk, Except.toBool]
      | cons first rest =>
          simp [nextPosition, hs, hl, exceptBind_ok, exceptPure, Except.isOk, Except.toBool]
  | workspaceScope =>
      rw [hs] at h
      simp only [beq_self_eq_true, Bool.true_and] at h
      rcases optFalsy_false h with ⟨f, hwf, hf⟩
      cases hl : ((alistLookup (getWorkspaceState s).folders f).getD []).map
          (toTodo .workspaceScope (some f)) with
      | nil =>
          simp [nextPosition, hs, hwf, ensureWorkspaceFolder_ok f hf, exceptBind_ok,
            getWorkspaceTodos_eq s f hf, hl, exceptPure, Except.isOk, Except.toBool]
      | cons first rest =>
          simp [nextPosition, hs, hwf, ensureWorkspaceFolder_ok f hf, exceptBind_ok,
            getWorkspaceTodos_eq s f hf, hl, exceptPure, Except.isOk, Except.toBool]

theorem createTodo_isOk_of (s : RepoState) (input : CreateTodoInput) (freshId : String)
    (now : Nat)
    (h : (input.scope == TodoScope.workspaceScope && optFalsy input.workspaceFolder)
      = false) :
    (createTodo s input freshId now).isOk = true := by
  cases hp : input.position with
  | some p => simp [createTodo, h, hp, exceptBind_ok, exceptPure, Except.isOk, Except.toBool]
  | none =>
      rcases exists_ok_of_isOk (nextPosition_isOk_of s input h) with ⟨p, hnp⟩
      simp [createTodo, h, hp, hnp, exceptBind_ok, exceptPure, Except.isOk, Except.toBool]

theorem createTodo_error_of (s : RepoState) (input : CreateTodoInput) (freshId : String)
    (now : Nat)
    (h : (input.scope == TodoScope.workspaceScope && optFalsy input.workspaceFolder)
      = true) :
    createTodo s input freshId now =
      .error "workspaceFolder must be provided for workspace scoped todos." := by
  simp [createTodo, h, exceptThrow, exceptBind_error]

theorem exceptMap_error {ε α β : Type} (h : α → β) (e : ε) :
    h <$> (Except.error e : Except ε α) = .error e := rfl

theorem createTodo_ok_fields (s : RepoState) (input : CreateTodoInput) (freshId : String)
    (now : Nat) (todo : Todo) (h : createTodo s input freshId now = .ok todo) :
    todo.id = freshId ∧ todo.title = input.title ∧ todo.completed = false
    ∧ todo.createdAt = now ∧ todo.updatedAt = now ∧ todo.scope = input.scope
    ∧ (input.position = none → nextPosition s input = .ok todo.position) := by
  by_cases hc : (input.scope == TodoScope.workspaceScope && optFalsy input.workspaceFolder)
      = true
  · rw [createTodo_error_of s input freshId now hc] at h
    cases h
  · have hc' : (input.scope == TodoScope.workspaceScope && optFalsy input.workspaceFolder)
        = false := by simpa using hc
    cases hp : input.position with
    | some p =>
        simp only [createTodo, hc', Bool.false_eq_true, if_false, hp, exceptBind_ok,
          exceptPure, Except.ok.injEq] at h
        rw [← h]
        refine ⟨rfl, rfl, rfl, rfl, rfl, rfl, ?_⟩
        intro hpn
        cases hpn
    | none =>
        cases hn : nextPosition s input with
        | error e =>
            simp only [createTodo, hc', Bool.false_eq_true, if_false, hp, exceptBind_ok,
              exceptPure, hn, exceptMap_error] at h
            cases h
        | ok p =>
            simp only [createTodo, hc', Bool.false_eq_true, if_false, hp, exceptBind_ok,
              exceptPure, hn, exceptMap_ok, Except.ok.injEq] at h
            rw [← h]
            exact ⟨rfl, rfl, rfl, rfl, rfl, rfl, fun _ => rfl⟩

theorem foldMax_eq_max? (first : Todo) (rest : List Todo) :
    ((first :: rest).map Todo.position).max? =
      some (rest.foldl (fun acc todo => max acc todo.position) first.position) := by
  show some ((rest.map Todo.position).foldl max first.position) = _
  rw [List.foldl_map]

theorem nextPosition_spec (s : RepoState) (input : CreateTodoInput) (p : Int)
    (siblings : List Todo)
    (hn : nextPosition s input = .ok p)
    (hr : readTodos s (targetOfInput input) = .ok siblings) :
    (siblings = [] → p = 1)
    ∧ (∀ mx, (siblings.map Todo.position).max? = some mx → p = mx + 1) := by
  cases hs : input.scope with
  | globalScope =>
      simp only [targetOfInput, hs, readTodos, Except.ok.injEq] at hr
      simp only [nextPosition, hs, exceptBind_ok, exceptPure] at hn
      rw [hr] at hn
      cases siblings with
      | nil =>
          simp only [exceptPure, Except.ok.injEq] at hn
          exact ⟨fun _ => hn.symm, fun mx hmx => by cases hmx⟩
      | cons first rest =>
          simp only [exceptPure, Except.ok.injEq] at hn
          constructor
          · intro hco
            cases hco
          · intro mx hmx
            rw [foldMax_eq_max?] at hmx
            simp only [Option.some.injEq] at hmx
            rw [← hn, hmx]
  | workspaceScope =>
      cases hwf : input.workspaceFolder with
      | none =>
          simp [nextPosition, hs, hwf, ensureWorkspaceFolder, exceptBind_error] at hn
      | some f =>
          by_cases hf : f.isEmpty
          · simp [nextPosition, hs, hwf, ensureWorkspaceFolder, hf, exceptBind_error]
              at hn
          · have hf' : f.isEmpty = false := by simpa using hf
            simp only [nextPosition, hs, hwf, ensureWorkspaceFolder_ok f hf',
              exceptBind_ok, getWorkspaceTodos_eq s f hf', exceptPure] at hn
            simp only [targetOfInput, hs, hwf, Option.getD_some, readTodos,
              getWorkspaceTodos_eq s f hf', Except.ok.injEq] at hr
            rw [hr] at hn
            cases siblings with
            | nil =>
                simp only [exceptPure, Except.ok.injEq] at hn
                exact ⟨fun _ => hn.symm, fun mx hmx => by cases hmx⟩
            | cons first rest =>
                simp only [exceptPure, Except.ok.injEq] at hn
                constructor
                · intro hco
                  cases hco
                · intro mx hmx
                  rw [foldMax_eq_max?] at hmx
                  simp only [Option.some.injEq] at hmx
                  rw [← hn, hmx]

theorem handleWebviewCreate_empty_title (repo : RepoState) (scope : WebviewScope)
    (title freshId : String) (now : Nat) (h : jsTrim title = "") :
    handleWebviewCreate repo scope title freshId now = .ok (false, repo) := by
  cases hsc : scopeFromWebviewScope scope with
  | none => simp [handleWebviewCreate, hsc]
  | some target =>
      have hempty : ("" : String).isEmpty = true := rfl
      simp [handleWebviewCreate, hsc, h, hempty]

/-- C4 counterexample: `createTodo` itself does not validate the title — with
an empty title and global scope it succeeds, returning a todo, instead of
failing with a validation error. -/
theorem createTodo_accepts_empty_title :
    createTodo emptyRepo { title := "", scope := .globalScope } "id-1" 5 =
      .ok { id := "id-1", title := "", completed := false, scope := .globalScope,
            workspaceFolder := none, position := 1, createdAt := 5, updatedAt := 5 } :=
  rfl

/-- C4 amended: `createTodo` throws exactly for workspace-scope inputs whose
workspace folder is missing (or empty); empty-after-trim titles are instead
rejected upstream by `handleWebviewCreate` as a silent no-op, before
`createTodo` is ever called; and every successful `createTodo` call with no
explicit position returns an item with `completed = false`,
`createdAt = updatedAt = now`, the fresh id and the trimmed-by-caller title,
and position `max(existing positions in the bucket) + 1` (or `1` when the
bucket is empty). -/
theorem createItem_validation :
    (∀ (s : RepoState) (input : CreateTodoInput) (freshId : String) (now : Nat),
      (∃ e, createTodo s input freshId now = .error e) ↔
        (input.scope = .workspaceScope ∧ optFalsy input.workspaceFolder = true))
    ∧ (∀ (repo : RepoState) (scope : WebviewScope) (title freshId : String) (now : Nat),
        jsTrim title = "" →
        handleWebviewCreate repo scope title freshId now = .ok (false, repo))
    ∧ (∀ (s : RepoState) (input : CreateTodoInput) (freshId : String) (now : Nat)
        (todo : Todo) (siblings : List Todo),
        createTodo s input freshId now = .ok todo →
        input.position = none →
        readTodos s (targetOfInput input) = .ok siblings →
        todo.completed = false ∧ todo.createdAt = now ∧ todo.updatedAt = now
        ∧ todo.id = freshId ∧ todo.title = input.title
        ∧ (siblings = [] → todo.position = 1)
        ∧ (∀ mx, (siblings.map Todo.position).max? = some mx → todo.position = mx + 1)) := by
  refine ⟨?_, ?_, ?_⟩
  · intro s input freshId now
    constructor
    · rintro ⟨e, he⟩
      by_cases hc : (input.scope == TodoScope.workspaceScope
          && optFalsy input.workspaceFolder) = true
      · simpa [Bool.and_eq_true, beq_iff_eq] using hc
      · exfalso
        have hc' : (input.scope == TodoScope.workspaceScope
            && optFalsy input.workspaceFolder) = false := by simpa using hc
        have hok := createTodo_isOk_of s input freshId now hc'
        rw [he] at hok
        cases hok
    · intro hcond
      refine ⟨_, createTodo_error_of s input freshId now ?_⟩
      simp [Bool.and_eq_true, beq_iff_eq, hcond.1, hcond.2]
  · intro repo scope title freshId now h
    exact handleWebviewCreate_empty_title repo scope title freshId now h
  · intro s input freshId now todo siblings h hp hr
    obtain ⟨hid, htitle, hcompleted, hcreated, hupdated, _, hnext⟩ :=
      createTodo_ok_fields s input freshId now todo h
    obtain ⟨h1, h2⟩ := nextPosition_spec s input todo.position siblings (hnext hp) hr
    exact ⟨hcompleted, hcreated, hupdated, hid, htitle, h1, h2⟩

/-- Witness for C4's amended claim: a workspace-scope input without a folder
errors, a whitespace title is silently declined by the router, and a create on
a bucket whose maximum position is 4 yields position 5. -/
theorem createItem_validation_witness :
    ((∃ e, createTodo emptyRepo
        { title := "t", scope := .workspaceScope, workspaceFolder := none, position := none }
        "i" 0 = .error e) ↔
      (TodoScope.workspaceScope = TodoScope.workspaceScope
        ∧ optFalsy (none : Option String) = true))
    ∧ handleWebviewCreate emptyRepo .globalScope "   " "id-1" 5 = .ok (false, emptyRepo)
    ∧ (demoCreated.completed = false ∧ demoCreated.createdAt = 7 ∧ demoCreated.updatedAt = 7
        ∧ demoCreated.id = "id-9" ∧ demoCreated.title = "T"
        ∧ (getGlobalTodos demoRepoHi = [] → demoCreated.position = 1)
        ∧ (∀ mx, ((getGlobalTodos demoRepoHi).map Todo.position).max? = some mx →
            demoCreated.position = mx + 1)) :=
  ⟨createItem_validation.1 emptyRepo
     { title := "t", scope := .workspaceScope, workspaceFolder := none, position := none }
     "i" 0,
   createItem_validation.2.1 emptyRepo .globalScope "   " "id-1" 5 (by decide),
   createItem_validation.2.2 demoRepoHi { title := "T", scope := .globalScope } "id-9" 7
     demoCreated (getGlobalTodos demoRepoHi) rfl rfl rfl⟩

/-- C5: for a bucket holding `[X, Y]`, running the removal flow for `X`
(cancel timer, capture snapshot, persist the filtered bucket) reports a
mutation and leaves the pre-removal snapshot `[X, Y]` — positions and
timestamps untouched — retrievable via `consumeSnapshot`. -/
theorem removeTodo_snapshot_roundtrip (repo : RepoState) (sched : SchedulerState)
    (scope : ScopeTarget) (X Y : Todo) (key : String)
    (out : Bool × RepoState × SchedulerState)
    (hread : readTodos repo scope = .ok [X, Y])
    (hkey : scopeKeyOfTarget scope = .ok key)
    (hrun : removeTodoCore repo sched scope X.id = .ok out) :
    out.1 = true ∧ (consumeSnapshot out.2.1 key).1 = some [X, Y] := by
  rw [removeTodoCore, hread] at hrun
  simp only [exceptBind_ok] at hrun
  have hfind : ([X, Y].find? (fun item => item.id == X.id)) = some X := by
    simp [List.find?]
  rw [hfind] at hrun
  simp only [hkey, exceptBind_ok] at hrun
  cases hp : persistTodos (captureSnapshot repo key [X, Y]) scope
      ([X, Y].filter (fun item => !(item.id == X.id))) with
  | error e => rw [hp] at hrun; cases hrun
  | ok repo2 =>
      rw [hp] at hrun
      simp only [exceptBind_ok, exceptPure, Except.ok.injEq] at hrun
      rw [← hrun]
      refine ⟨rfl, ?_⟩
      simp only [consumeSnapshot]
      have hsnap := persistTodos_undoSnapshots _ _ _ _ hp
      rw [hsnap]
      simp only [captureSnapshot]
      rw [alistLookup_set_self]

/-- Witness for C5: remove `a` from the concrete global bucket `[A, B]` and
consume the snapshot. -/
theorem removeTodo_snapshot_roundtrip_witness :
    (true, demoRemovedRepo, emptyScheduler).1 = true
    ∧ (consumeSnapshot (true, demoRemovedRepo,
        emptyScheduler).2.1 "global").1 = some [todoA, todoB] :=
  removeTodo_snapshot_roundtrip demoRepoAB emptyScheduler .globalTarget todoA todoB
    "global" (true, demoRemovedRepo, emptyScheduler) rfl rfl rfl

/-- C6: the snapshot store is single-slot per scope key and read-once:
a capture makes exactly that list retrievable, a second capture before
consuming discards the first, consuming deletes the slot so an immediately
following consume is absent, and consuming with no capture stored is absent. -/
theorem snapshot_single_slot_read_once :
    (∀ (s : RepoState) (key : String) (todos : List Todo),
        (consumeSnapshot (captureSnapshot s key todos) key).1 = some todos)
    ∧ (∀ (s : RepoState) (key : String) (first second : List Todo),
        (consumeSnapshot (captureSnapshot (captureSnapshot s key first) key second)
          key).1 = some second)
    ∧ (∀ (s : RepoState) (key : String),
        (consumeSnapshot (consumeSnapshot s key).2 key).1 = none)
    ∧ (∀ (s : RepoState) (key : String),
        alistLookup s.undoSnapshots key = none → (consumeSnapshot s key).1 = none) := by
  refine ⟨?_, ?_, ?_, ?_⟩
  · intro s key todos
    simp only [consumeSnapshot, captureSnapshot]
    rw [alistLookup_set_self]
  · intro s key first second
    simp only [consumeSnapshot, captureSnapshot]
    rw [alistLookup_set_self]
  · intro s key
    simp only [consumeSnapshot]
    rw [alistLookup_delete_self]
  · intro s key h
    simp only [consumeSnapshot]
    rw [h]

/-- Witness for C6 at a concrete repository, key, and snapshot lists. -/
theorem snapshot_single_slot_read_once_witness :
    (consumeSnapshot (captureSnapshot emptyRepo "global" [todoA]) "global").1 = some [todoA]
    ∧ (consumeSnapshot (captureSnapshot (captureSnapshot emptyRepo "global" [todoA])
        "global" [todoB]) "global").1 = some [todoB]
    ∧ (consumeSnapshot (consumeSnapshot demoRepoAB "global").2 "global").1 = none
    ∧ (consumeSnapshot emptyRepo "global").1 = none :=
  ⟨snapshot_single_slot_read_once.1 emptyRepo "global" [todoA],
   snapshot_single_slot_read_once.2.1 emptyRepo "global" [todoA] [todoB],
   snapshot_single_slot_read_once.2.2.1 demoRepoAB "global",
   snapshot_single_slot_read_once.2.2.2 emptyRepo "global" rfl⟩

theorem cancelTimer_cues (st : SchedulerState) (scope : ScopeTarget) (todoId : String) :
    (cancelTimer st scope todoId).cues = st.cues := by
  simp only [cancelTimer]
  split <;> rfl

theorem cancelTimer_removals (st : SchedulerState) (scope : ScopeTarget) (todoId : String) :
    (cancelTimer st scope todoId).removals = st.removals := by
  simp only [cancelTimer]
  split <;> rfl

theorem cancelTimer_of_none (st : SchedulerState) (scope : ScopeTarget) (todoId : String)
    (h : alistLookup st.timers (buildKey scope todoId) = none) :
    cancelTimer st scope todoId = st := by
  simp only [cancelTimer, h]

theorem cancelTimer_lookup_none (st : SchedulerState) (scope : ScopeTarget)
    (todoId key : String) (h : alistLookup st.timers key = none) :
    alistLookup (cancelTimer st scope todoId).timers key = none := by
  simp only [cancelTimer]
  split
  · by_cases hk : key = buildKey scope todoId
    · rw [hk]
      exact alistLookup_delete_self _ _
    · rw [alistLookup_delete_ne _ _ _ hk]
      exact h
  · exact h

theorem cancelTimer_self_none (st : SchedulerState) (scope : ScopeTarget)
    (todoId : String) :
    alistLookup (cancelTimer st scope todoId).timers (buildKey scope todoId) = none := by
  simp only [cancelTimer]
  split
  · exact alistLookup_delete_self _ _
  · next heq => exact heq

theorem scheduleTimer_cues (st : SchedulerState) (scope : ScopeTarget) (todoId : String)
    (config : TodoConfig) : (scheduleTimer st scope todoId config).cues = st.cues := by
  simp only [scheduleTimer]
  split
  · exact cancelTimer_cues st scope todoId
  · exact cancelTimer_cues st scope todoId

theorem scheduleTimer_removals (st : SchedulerState) (scope : ScopeTarget)
    (todoId : String) (config : TodoConfig) :
    (scheduleTimer st scope todoId config).removals = st.removals := by
  simp only [scheduleTimer]
  split
  · exact cancelTimer_removals st scope todoId
  · exact cancelTimer_removals st scope todoId

theorem schedulerStep_no_key (st : SchedulerState) (ev : SchedulerEvent) (key : String)
    (hnone : alistLookup st.timers key = none)
    (hev : eventArmsKey ev key = false) :
    alistLookup (schedulerStep st ev).timers key = none
    ∧ (schedulerStep st ev).cues.filter (fun c => c.1 == key) =
        st.cues.filter (fun c => c.1 == key)
    ∧ (schedulerStep st ev).removals.filter (fun r => r == key) =
        st.removals.filter (fun r => r == key) := by
  cases ev with
  | fireDelay k =>
      simp only [schedulerStep, fireDelayTimer]
      split
      · next d f heq =>
          have hk : k ≠ key := by
            intro hkk
            rw [hkk, hnone] at heq
            cases heq
          refine ⟨?_, ?_, rfl⟩
          · rw [alistLookup_set_ne _ _ _ _ (Ne.symm hk)]
            exact hnone
          · rw [List.filter_append]
            simp [beq_eq_false_iff_ne.mpr hk]
      · exact ⟨hnone, rfl, rfl⟩
  | fireFade k =>
      simp only [schedulerStep, fireFadeTimer]
      split
      · next heq =>
          have hk : k ≠ key := by
            intro hkk
            rw [hkk, hnone] at heq
            cases heq
          refine ⟨?_, rfl, ?_⟩
          · rw [alistLookup_delete_ne _ _ _ (Ne.symm hk)]
            exact hnone
          · rw [List.filter_append]
            simp [beq_eq_false_iff_ne.mpr hk]
      · exact ⟨hnone, rfl, rfl⟩
  | cancelFor sc tid =>
      exact ⟨cancelTimer_lookup_none st sc tid key hnone,
        by rw [schedulerStep, cancelTimer_cues],
        by rw [schedulerStep, cancelTimer_removals]⟩
  | scheduleFor sc tid config =>
      simp only [eventArmsKey, Bool.and_eq_false_iff] at hev
      simp only [schedulerStep, scheduleTimer]
      split
      · exact ⟨cancelTimer_lookup_none st sc tid key hnone,
          cancelTimer_cues st sc tid ▸ rfl, cancelTimer_removals st sc tid ▸ rfl⟩
      · next hen =>
          have henabled : config.autoDeleteCompleted = true := by
            cases hb : config.autoDeleteCompleted with
            | true => rfl
            | false => rw [hb] at hen; simp at hen
          have hk : buildKey sc tid ≠ key := by
            rcases hev with hev | hev
            · rw [henabled] at hev; cases hev
            · exact beq_eq_false_iff_ne.mp hev
          refine ⟨?_, ?_, ?_⟩
          · rw [alistLookup_set_ne _ _ _ _ (Ne.symm hk)]
            exact cancelTimer_lookup_none st sc tid key hnone
          · rw [cancelTimer_cues]
          · rw [cancelTimer_removals]

theorem schedulerRun_no_key (events : List SchedulerEvent) (st : SchedulerState)
    (key : String) (hnone : alistLookup st.timers key = none)
    (hev : ∀ ev ∈ events, eventArmsKey ev key = false) :
    alistLookup (schedulerRun st events).timers key = none
    ∧ (schedulerRun st events).cues.filter (fun c => c.1 == key) =
        st.cues.filter (fun c => c.1 == key)
    ∧ (schedulerRun st events).removals.filter (fun r => r == key) =
        st.removals.filter (fun r => r == key) := by
  induction events generalizing st with
  | nil => exact ⟨hnone, rfl, rfl⟩
  | cons ev rest ih =>
      obtain ⟨h1, h2, h3⟩ := schedulerStep_no_key st ev key hnone (hev ev (by simp))
      obtain ⟨g1, g2, g3⟩ := ih (schedulerStep st ev) h1
        (fun e he => hev e (by simp [he]))
      exact ⟨g1, g2.trans h2, g3.trans h3⟩

/-- C7: once `cancel` runs for a (scope, itemId) key before its delay timer
fires, no later timer firing or unrelated scheduler activity (anything that
does not re-schedule that key) ever invokes the fade cue or the removal
handler for that key; and `cancel` on a key with no pending timer is a no-op. -/
theorem autoDelete_cancel_prevents_callbacks (st : SchedulerState) (scope : ScopeTarget)
    (todoId : String) (config : TodoConfig) (events : List SchedulerEvent)
    (st' : SchedulerState)
    (hev : ∀ ev ∈ events, eventArmsKey ev (buildKey scope todoId) = false)
    (hnone' : alistLookup st'.timers (buildKey scope todoId) = none) :
    ((schedulerRun (cancelTimer (scheduleTimer st scope todoId config) scope todoId)
        events).cues.filter (fun c => c.1 == buildKey scope todoId) =
      st.cues.filter (fun c => c.1 == buildKey scope todoId))
    ∧ ((schedulerRun (cancelTimer (scheduleTimer st scope todoId config) scope todoId)
        events).removals.filter (fun r => r == buildKey scope todoId) =
      st.removals.filter (fun r => r == buildKey scope todoId))
    ∧ cancelTimer st' scope todoId = st' := by
  obtain ⟨_, h2, h3⟩ := schedulerRun_no_key events
    (cancelTimer (scheduleTimer st scope todoId config) scope todoId)
    (buildKey scope todoId) (cancelTimer_self_none _ scope todoId) hev
  refine ⟨?_, ?_, cancelTimer_of_none st' scope todoId hnone'⟩
  · rw [h2, cancelTimer_cues, scheduleTimer_cues]
  · rw [h3, cancelTimer_removals, scheduleTimer_removals]

/-- Witness for C7: schedule with `delayMs = 5`, `fadeMs = 5`, cancel before
the delay fires, then let stale delay and fade firings for that key and a
firing for another key arrive — no cue and no removal is recorded. -/
theorem autoDelete_cancel_prevents_callbacks_witness :
    ((schedulerRun (cancelTimer (scheduleTimer emptyScheduler .globalTarget "a"
        { autoDeleteCompleted := true, autoDeleteDelayMs := some 5,
          autoDeleteFadeMs := some 5 }) .globalTarget "a")
        [.fireDelay (buildKey .globalTarget "a"), .fireFade (buildKey .globalTarget "a"),
         .fireDelay "global:other"]).cues.filter
        (fun c => c.1 == buildKey .globalTarget "a") =
      emptyScheduler.cues.filter (fun c => c.1 == buildKey .globalTarget "a"))
    ∧ ((schedulerRun (cancelTimer (scheduleTimer emptyScheduler .globalTarget "a"
        { autoDeleteCompleted := true, autoDeleteDelayMs := some 5,
          autoDeleteFadeMs := some 5 }) .globalTarget "a")
        [.fireDelay (buildKey .globalTarget "a"), .fireFade (buildKey .globalTarget "a"),
         .fireDelay "global:other"]).removals.filter
        (fun r => r == buildKey .globalTarget "a") =
      emptyScheduler.removals.filter (fun r => r == buildKey .globalTarget "a"))
    ∧ cancelTimer emptyScheduler .globalTarget "a" = emptyScheduler :=
  autoDelete_cancel_prevents_callbacks emptyScheduler .globalTarget "a"
    { autoDeleteCompleted := true, autoDeleteDelayMs := some 5,
      autoDeleteFadeMs := some 5 }
    [.fireDelay (buildKey .globalTarget "a"), .fireFade (buildKey .globalTarget "a"),
     .fireDelay "global:other"]
    emptyScheduler (by decide) rfl

/-- C8: a message posted before the channel's ready handshake is buffered and
not delivered; when the handshake arrives (on a resolved view) the whole
buffer is flushed to the webview in FIFO order; and a message posted after
readiness is delivered immediately, leaving the buffer alone. -/
theorem readiness_buffering (μ : Type) (st : ChannelState μ) (message : μ) :
    (st.ready = false →
      (channelPost st message).delivered = st.delivered
      ∧ (channelPost st message).pendingMessages = st.pendingMessages ++ [message])
    ∧ (st.hasView = true →
      (channelMarkReady st).delivered = st.delivered ++ st.pendingMessages
      ∧ (channelMarkReady st).pendingMessages = [])
    ∧ (st.hasView = true → st.ready = true →
      (channelPost st message).delivered = st.delivered ++ [message]
      ∧ (channelPost st message).pendingMessages = st.pendingMessages) := by
  refine ⟨?_, ?_, ?_⟩
  · intro hready
    simp [channelPost, hready]
  · intro hview
    cases hpend : st.pendingMessages with
    | nil => simp [channelMarkReady, channelFlush, hview, hpend]
    | cons m rest => simp [channelMarkReady, channelFlush, hview, hpend]
  · intro hview hready
    simp [channelPost, hview, hready]

/-- Witness for C8: posting on a not-yet-ready channel buffers, marking it
ready flushes FIFO, and posting on a ready channel delivers immediately. -/
theorem readiness_buffering_witness :
    ((channelPost demoChannel 3).delivered = demoChannel.delivered
      ∧ (channelPost demoChannel 3).pendingMessages =
          demoChannel.pendingMessages ++ [3])
    ∧ ((channelMarkReady demoChannel).delivered =
          demoChannel.delivered ++ demoChannel.pendingMessages
      ∧ (channelMarkReady demoChannel).pendingMessages = [])
    ∧ ((channelPost demoReadyChannel 3).delivered = demoReadyChannel.delivered ++ [3]
      ∧ (channelPost demoReadyChannel 3).pendingMessages =
          demoReadyChannel.pendingMessages) :=
  ⟨(readiness_buffering Nat demoChannel 3).1 rfl,
   (readiness_buffering Nat demoChannel 3).2.1 rfl,
   (readiness_buffering Nat demoReadyChannel 3).2.2 rfl rfl⟩

theorem readTodos_scope_facts {repo : RepoState} {scope : ScopeTarget} {l : List Todo}
    (h : readTodos repo scope = .ok l) :
    ∃ key, scopeKeyOfTarget scope = .ok key ∧
      ∀ (s : RepoState) (todos : List Todo), ∃ s', persistTodos s scope todos = .ok s'
        ∧ s'.undoSnapshots = s.undoSnapshots := by
  cases scope with
  | globalTarget =>
      exact ⟨"global", rfl, fun s todos => ⟨_, rfl, rfl⟩⟩
  | workspaceTarget f =>
      by_cases hf : f.isEmpty
      · rw [readTodos, getWorkspaceTodos] at h
        simp [ensureWorkspaceFolder, hf, exceptBind_error] at h
      · have hf' : f.isEmpty = false := by simpa using hf
        refine ⟨"workspace:" ++ f, ?_, ?_⟩
        · simp [scopeKeyOfTarget, scopeKey, ensureWorkspaceFolder_ok f hf',
            exceptBind_ok, exceptPure]
        · intro s todos
          refine ⟨?_, ?_, ?_⟩
          · exact { s with
              workspaceMemento :=
                some { version := SCHEMA_VERSION,
                       folders := alistSet (getWorkspaceState s).folders f
                         ((normalizePositions todos).map toEntity) } }
          · rw [persistTodos, saveWorkspaceTodos_eq s f _ hf']
          · rfl

theorem clearScope_empty (repo : RepoState) (sched : SchedulerState) (scope : ScopeTarget)
    (confirmSetting userConfirms userUndoes : Bool)
    (hread : readTodos repo scope = .ok []) :
    clearScope repo sched scope confirmSetting userConfirms userUndoes =
      .ok { askedConfirm := false, showedEmptyNotice := true, broadcasts := 0,
            repo := repo, sched := sched } := by
  simp [clearScope, hread, exceptBind_ok, exceptPure, List.isEmpty]

theorem clearScope_single (repo : RepoState) (sched : SchedulerState)
    (scope : ScopeTarget) (t : Todo) (userConfirms userUndoes : Bool)
    (hread : readTodos repo scope = .ok [t]) :
    ∃ o, clearScope repo sched scope true userConfirms userUndoes = .ok o
      ∧ o.askedConfirm = false ∧ o.showedEmptyNotice = false ∧ 1 ≤ o.broadcasts := by
  obtain ⟨key, hkey, hpersist⟩ := readTodos_scope_facts hread
  obtain ⟨repo2, hp2, hsnap2⟩ := hpersist (captureSnapshot repo key [t]) []
  cases userUndoes with
  | false =>
      refine ⟨{ askedConfirm := false, showedEmptyNotice := false, broadcasts := 1,
                repo := repo2, sched := cancelScopeTimers sched scope [t] },
              ?_, rfl, rfl, le_refl 1⟩
      simp [clearScope, hread, hkey, hp2, exceptBind_ok, exceptPure, List.isEmpty]
  | true =>
      have hconsume : (consumeSnapshot repo2 key).1 = some [t] := by
        simp only [consumeSnapshot, hsnap2, captureSnapshot]
        rw [alistLookup_set_self]
      obtain ⟨repo3, hp3, _⟩ := hpersist (consumeSnapshot repo2 key).2 [t]
      refine ⟨{ askedConfirm := false, showedEmptyNotice := false, broadcasts := 2,
                repo := repo3, sched := cancelScopeTimers sched scope [t] },
              ?_, rfl, rfl, by norm_num⟩
      simp [clearScope, hread, hkey, hp2, hconsume, hp3, exceptBind_ok, exceptPure,
        List.isEmpty]

theorem clearScope_multi (repo : RepoState) (sched : SchedulerState)
    (scope : ScopeTarget) (t1 t2 : Todo) (rest : List Todo)
    (userConfirms userUndoes : Bool)
    (hread : readTodos repo scope = .ok (t1 :: t2 :: rest)) :
    ∃ o, clearScope repo sched scope true userConfirms userUndoes = .ok o
      ∧ o.askedConfirm = true := by
  have hlen : (t1 :: t2 :: rest).length > 1 := by simp
  have hdec : decide ((t1 :: t2 :: rest).length > 1) = true := decide_eq_true hlen
  obtain ⟨key, hkey, hpersist⟩ := readTodos_scope_facts hread
  obtain ⟨repo2, hp2, hsnap2⟩ := hpersist (captureSnapshot repo key (t1 :: t2 :: rest)) []
  cases userConfirms with
  | false =>
      refine ⟨{ askedConfirm := true, showedEmptyNotice := false, broadcasts := 0,
                repo := repo, sched := cancelScopeTimers sched scope (t1 :: t2 :: rest) },
              ?_, rfl⟩
      simp [clearScope, hread, hdec, exceptBind_ok, exceptPure, List.isEmpty]
  | true =>
      cases userUndoes with
      | false =>
          refine ⟨{ askedConfirm := true, showedEmptyNotice := false, broadcasts := 1,
                    repo := repo2,
                    sched := cancelScopeTimers sched scope (t1 :: t2 :: rest) },
                  ?_, rfl⟩
          simp [clearScope, hread, hdec, hkey, hp2, exceptBind_ok, exceptPure,
            List.isEmpty]
      | true =>
          have hconsume : (consumeSnapshot repo2 key).1 = some (t1 :: t2 :: rest) := by
            simp only [consumeSnapshot, hsnap2, captureSnapshot]
            rw [alistLookup_set_self]
          obtain ⟨repo3, hp3, _⟩ :=
            hpersist (consumeSnapshot repo2 key).2 (t1 :: t2 :: rest)
          refine ⟨{ askedConfirm := true, showedEmptyNotice := false, broadcasts := 2,
                    repo := repo3,
                    sched := cancelScopeTimers sched scope (t1 :: t2 :: rest) },
                  ?_, rfl⟩
          simp [clearScope, hread, hdec, hkey, hp2, hconsume, hp3, exceptBind_ok,
            exceptPure, List.isEmpty]

/-- C9: with confirmation enabled, clearing a one-item bucket proceeds without
invoking the confirmation collaborator while a bucket of two or more items
asks for confirmation first; clearing an empty bucket only shows the "empty"
notice, writes nothing, and triggers no rebroadcast. -/
theorem clearScope_confirmation_policy :
    (∀ (repo : RepoState) (sched : SchedulerState) (scope : ScopeTarget)
        (confirmSetting userConfirms userUndoes : Bool),
        readTodos repo scope = .ok [] →
        clearScope repo sched scope confirmSetting userConfirms userUndoes =
          .ok { askedConfirm := false, showedEmptyNotice := true, broadcasts := 0,
                repo := repo, sched := sched })
    ∧ (∀ (repo : RepoState) (sched : SchedulerState) (scope : ScopeTarget) (t : Todo)
        (userConfirms userUndoes : Bool),
        readTodos repo scope = .ok [t] →
        ∃ o, clearScope repo sched scope true userConfirms userUndoes = .ok o
          ∧ o.askedConfirm = false ∧ o.showedEmptyNotice = false ∧ 1 ≤ o.broadcasts)
    ∧ (∀ (repo : RepoState) (sched : SchedulerState) (scope : ScopeTarget)
        (t1 t2 : Todo) (rest : List Todo) (userConfirms userUndoes : Bool),
        readTodos repo scope = .ok (t1 :: t2 :: rest) →
        ∃ o, clearScope repo sched scope true userConfirms userUndoes = .ok o
          ∧ o.askedConfirm = true) :=
  ⟨fun repo sched scope confirmSetting userConfirms userUndoes h =>
      clearScope_empty repo sched scope confirmSetting userConfirms userUndoes h,
   fun repo sched scope t userConfirms userUndoes h =>
      clearScope_single repo sched scope t userConfirms userUndoes h,
   fun repo sched scope t1 t2 rest userConfirms userUndoes h =>
      clearScope_multi repo sched scope t1 t2 rest userConfirms userUndoes h⟩

/-- Witness for C9 on concrete empty, one-item, and two-item global buckets. -/
theorem clearScope_confirmation_policy_witness :
    clearScope emptyRepo emptyScheduler .globalTarget true true false =
      .ok { askedConfirm := false, showedEmptyNotice := true, broadcasts := 0,
            repo := emptyRepo, sched := emptyScheduler }
    ∧ (∃ o, clearScope demoRepoOne emptyScheduler .globalTarget true true false = .ok o
        ∧ o.askedConfirm = false ∧ o.showedEmptyNotice = false ∧ 1 ≤ o.broadcasts)
    ∧ (∃ o, clearScope demoRepoAB emptyScheduler .globalTarget true true false = .ok o
        ∧ o.askedConfirm = true) :=
  ⟨clearScope_confirmation_policy.1 emptyRepo emptyScheduler .globalTarget
      true true false rfl,
   clearScope_confirmation_policy.2.1 demoRepoOne emptyScheduler .globalTarget todoA
      true false rfl,
   clearScope_confirmation_policy.2.2 demoRepoAB emptyScheduler .globalTarget todoA
      todoB [] true false rfl⟩
